import Mathlib

/-!
Shallow embedding of the mpv preload module (player/preload.c together with
its headers player/preload.h and mpv/preload.h).

The module is a fixed-capacity cache of background prefetch sessions keyed by
URL.  Each occupied slot owns an engine context (`mpv_global`), a source handle
(`demuxer`), and a cancellation token (`mp_cancel`), and is driven by one
worker thread (`preload_thread`).  The registry operations are
`mpv_preload_start`, `mpv_preload_get_info`, `mpv_preload_get_demuxer` (the
ownership handoff / "claim" path), `mpv_preload_cancel`,
`mpv_preload_clear_all` and `mpv_preload_set_callback`.

Modelling choices:
* heap objects (demuxer, global, cancel token) are identified by `Nat` ids;
* `mp_cancel_trigger t` is recorded by inserting the token id `t` into the
  registry-state field `triggered` (a trigger is idempotent, so membership is
  the observable);
* the engine (`demux_get_reader_state`, `stream_get_size`) is an oracle
  `Nat → EngineView` mapping a demuxer id to its current progress snapshot;
* thread spawning (`mp_thread_create`) succeeds or fails according to an
  explicit `spawn_ok` parameter, and `time(NULL)` is an explicit `now`;
* each C function that mutates the global `preload_cache` becomes a pure
  state transformer on `PreloadCache`.
-/

/-- Status values of `mpv_preload_status` (mpv/preload.h). -/
inductive PreloadStatus where
  | NONE
  | LOADING
  | READY
  | ERROR
  | CACHED
deriving DecidableEq, Repr

/-- The `mpv_preload_info` structure (mpv/preload.h). `status` holds an
`mpv_preload_status` value; `file_size` is -1 when unknown. -/
structure mpv_preload_info where
  status : PreloadStatus
  fw_bytes : Int
  total_bytes : Int
  file_size : Int
  buffered_secs : Rat
  eof_cached : Bool
deriving DecidableEq, Repr

/-- The all-zero `mpv_preload_info`, as produced by `memset(info, 0, ...)`.
`PreloadStatus.NONE` is the status with numeric value 0. -/
def zero_info : mpv_preload_info :=
  { status := .NONE, fw_bytes := 0, total_bytes := 0, file_size := 0,
    buffered_secs := 0, eof_cached := false }

/-- The `mpv_preload_options` structure (mpv/preload.h). -/
structure mpv_preload_options where
  max_bytes : Int
  readahead_secs : Rat
deriving DecidableEq, Repr

/-- One slot of the registry: `struct preload_entry` (preload.c).  Heap
pointers (`global`, `demuxer`, `cancel`) are modelled as optional ids;
`url == none` models a NULL url, i.e. a free slot. -/
structure preload_entry where
  url : Option String
  globalCtx : Option Nat
  demuxer : Option Nat
  cancelTok : Option Nat
  status : PreloadStatus
  thread_running : Bool
  cancel_requested : Bool
  max_bytes : Int
  readahead_secs : Rat
  create_time : Int
  callback_info : mpv_preload_info
deriving DecidableEq, Repr

/-- The all-zero `preload_entry`, as produced by `memset(entry, 0, ...)` and
as the initial content of the static `preload_cache.entries` array. -/
def zeroEntry : preload_entry :=
  { url := none, globalCtx := none, demuxer := none, cancelTok := none,
    status := .NONE, thread_running := false, cancel_requested := false,
    max_bytes := 0, readahead_secs := 0, create_time := 0,
    callback_info := zero_info }

/-- The `MPV_PRELOAD_MAX_ENTRIES` (mpv/preload.h). -/
def MPV_PRELOAD_MAX_ENTRIES : Nat := 4

/-- The global `preload_cache` state plus the modelled token heap:
`triggered` collects the ids of all cancel tokens on which
`mp_cancel_trigger` has ever been called, and `g_callback` records whether a
callback is registered in `g_preload_callback`. -/
structure PreloadCache where
  entries : List preload_entry
  initialized : Bool
  triggered : List Nat
  g_callback : Bool
deriving DecidableEq, Repr

/-- Initial state of the static `preload_cache` and `g_preload_callback`. -/
def initialCache : PreloadCache :=
  { entries := List.replicate MPV_PRELOAD_MAX_ENTRIES zeroEntry,
    initialized := false, triggered := [], g_callback := false }

/-- The `find_entry_locked` (preload.c): index of the first entry whose url
matches, scanning slots in order. -/
def find_entry_locked : List preload_entry → String → Option Nat
  | [], _ => none
  | e :: rest, url =>
    if e.url = some url then some 0
    else (find_entry_locked rest url).map (· + 1)

/-- First loop of `find_free_slot_locked` (preload.c): index of the first
entry with a NULL url. -/
def find_first_free : List preload_entry → Option Nat
  | [] => none
  | e :: rest =>
    if e.url = none then some 0
    else (find_first_free rest).map (· + 1)

/-- Second loop of `find_free_slot_locked` (preload.c): running
oldest-entry scan.  `acc = some (j, t)` models `oldest = &entries[j]`,
`oldest_time = t`; `acc = none` models `oldest == NULL`.  The update fires
when `!oldest || e->create_time < oldest_time`. -/
def find_oldest_aux : List preload_entry → Nat → Option (Nat × Int) → Option (Nat × Int)
  | [], _, acc => acc
  | e :: rest, i, acc =>
    match acc with
    | none => find_oldest_aux rest (i + 1) (some (i, e.create_time))
    | some (j, t) =>
      if e.create_time < t then find_oldest_aux rest (i + 1) (some (i, e.create_time))
      else find_oldest_aux rest (i + 1) (some (j, t))

/-- The `cleanup_entry` (preload.c) applied to slot `j`, as a state transformer.
If the slot is free (`url == NULL`) it is a no-op.  Otherwise it sets
`cancel_requested`, triggers the token if present (`mp_cancel_trigger`),
joins the worker if running, frees demuxer/token/global and the url, and
`memset`s the entry to zero. -/
def cleanup_entry (c : PreloadCache) (j : Nat) : PreloadCache :=
  let e := c.entries.getD j zeroEntry
  if e.url = none then c
  else
    { c with
      entries := c.entries.set j zeroEntry,
      triggered := match e.cancelTok with
        | some t => t :: c.triggered
        | none => c.triggered }

/-- The `find_free_slot_locked` (preload.c): first free slot if any; otherwise
the oldest occupied entry is selected, destroyed via `cleanup_entry`, and its
index returned for reuse. -/
def find_free_slot_locked (c : PreloadCache) : Option Nat × PreloadCache :=
  match find_first_free c.entries with
  | some i => (some i, c)
  | none =>
    match find_oldest_aux c.entries 0 none with
    | some (j, _) => (some j, cleanup_entry c j)
    | none => (none, c)

/-- Result of `mpv_preload_start`, distinguishing the branches of the C
function; the C return value is recovered by `startRet`. -/
inductive StartResult where
  | ok
  | already_active
  | rejected
  | no_slot
deriving DecidableEq, Repr

/-- The `int` actually returned by `mpv_preload_start` in each branch:
0 for ok and for "already preloading", -1 otherwise. -/
def startRet : StartResult → Int
  | .ok => 0
  | .already_active => 0
  | .rejected => -1
  | .no_slot => -1

/-- Budget resolution for `max_bytes` in `mpv_preload_start`:
`(opts && opts->max_bytes > 0) ? opts->max_bytes : 10 * 1024 * 1024`. -/
def startBudgetBytes (opts : Option mpv_preload_options) : Int :=
  match opts with
  | some o => if 0 < o.max_bytes then o.max_bytes else 10 * 1024 * 1024
  | none => 10 * 1024 * 1024

/-- Budget resolution for `readahead_secs` in `mpv_preload_start`:
`(opts && opts->readahead_secs > 0) ? opts->readahead_secs : 10.0`. -/
def startBudgetSecs (opts : Option mpv_preload_options) : Rat :=
  match opts with
  | some o => if 0 < o.readahead_secs then o.readahead_secs else 10
  | none => 10

/-- The `mpv_preload_start` (preload.c).  `spawn_ok` models whether
`mp_thread_create` succeeds and `now` models `time(NULL)`.  `url = none`
models a NULL pointer argument. -/
def mpv_preload_start (spawn_ok : Bool) (now : Int) (c : PreloadCache)
    (url : Option String) (opts : Option mpv_preload_options) :
    StartResult × PreloadCache :=
  match url with
  | none => (.rejected, c)
  | some u =>
    if u = "" then (.rejected, c)
    else
      let c0 : PreloadCache := { c with initialized := true }
      match find_entry_locked c0.entries u with
      | some _ => (.already_active, c0)
      | none =>
        match find_free_slot_locked c0 with
        | (none, c1) => (.no_slot, c1)
        | (some i, c1) =>
          let old := c1.entries.getD i zeroEntry
          let e : preload_entry :=
            { old with
              url := some u,
              status := .LOADING,
              create_time := now,
              cancel_requested := false,
              max_bytes := startBudgetBytes opts,
              readahead_secs := startBudgetSecs opts }
          if spawn_ok then
            (.ok, { c1 with entries := c1.entries.set i ({ e with thread_running := true }) })
          else
            (.no_slot,
              { c1 with entries := c1.entries.set i ({ e with url := none, status := .NONE }) })

/-- A point-in-time view of one demuxer as delivered by the engine
(`demux_get_reader_state` plus `stream_get_size`); the registry reads it
through the oracle `engine : Nat → EngineView`. -/
structure EngineView where
  fw_bytes : Int
  total_bytes : Int
  eof_cached : Bool
  duration : Rat
  has_stream : Bool
  stream_size : Int

/-- The `fill_preload_info` (preload.c): zero the progress fields, set the
status, then overwrite from the engine snapshot when a demuxer exists. -/
def fill_preload_info (engine : Nat → EngineView) (e : preload_entry) :
    mpv_preload_info :=
  let base : mpv_preload_info :=
    { status := e.status, fw_bytes := 0, total_bytes := 0, file_size := -1,
      buffered_secs := 0, eof_cached := false }
  match e.demuxer with
  | none => base
  | some d =>
    let st := engine d
    { base with
      fw_bytes := st.fw_bytes,
      total_bytes := st.total_bytes,
      eof_cached := st.eof_cached,
      buffered_secs := if 0 ≤ st.duration then st.duration else base.buffered_secs,
      file_size := if st.has_stream then st.stream_size else base.file_size }

/-- The `mpv_preload_get_info` (preload.c).  `info0` is the caller's buffer; it
is returned untouched when the guard `!url || !info || !initialized` fires
(before the memset).  Otherwise the result is built from zeroed memory. -/
def mpv_preload_get_info (engine : Nat → EngineView) (c : PreloadCache)
    (url : String) (info0 : mpv_preload_info) : Int × mpv_preload_info :=
  if !c.initialized then (-1, info0)
  else
    match find_entry_locked c.entries url with
    | none => (-1, zero_info)
    | some i => (0, fill_preload_info engine (c.entries.getD i zeroEntry))

/-- State of a slot after the success path of `mpv_preload_get_demuxer`:
soft stop requested, worker joined, demuxer detached, url freed and cleared,
status reset to NONE, global and token re-parented onto the demuxer and the
entry's references nulled. -/
def claimedEntry (e : preload_entry) : preload_entry :=
  { e with
    cancel_requested := true,
    thread_running := false,
    demuxer := none,
    url := none,
    status := .NONE,
    globalCtx := none,
    cancelTok := none }

/-- The `mpv_preload_get_demuxer` (preload.c) — the claim / handoff path.
Returns the detached demuxer id (caller-owned) and the new registry state.
On the success path it sets only `cancel_requested` (never triggering the
token), joins the worker, detaches the demuxer, re-parents global and token
onto it (`talloc_steal`, no trigger), and clears the slot. -/
def mpv_preload_get_demuxer (c : PreloadCache) (url : String) :
    Option Nat × PreloadCache :=
  if !c.initialized then (none, c)
  else
    match find_entry_locked c.entries url with
    | none => (none, c)
    | some i =>
      let e := c.entries.getD i zeroEntry
      if e.status = .NONE ∨ e.status = .ERROR ∨ e.demuxer = none then (none, c)
      else
        (e.demuxer, { c with entries := c.entries.set i (claimedEntry e) })

/-- The `mpv_preload_cancel` (preload.c): set the soft flag, trigger the token
(hard cancel), join the worker outside the lock, then `cleanup_entry`. -/
def mpv_preload_cancel (c : PreloadCache) (url : String) : Int × PreloadCache :=
  if !c.initialized then (-1, c)
  else
    match find_entry_locked c.entries url with
    | none => (-1, c)
    | some i =>
      let e := c.entries.getD i zeroEntry
      let c1 : PreloadCache :=
        { c with
          entries := c.entries.set i { e with cancel_requested := true, thread_running := false },
          triggered := match e.cancelTok with
            | some t => t :: c.triggered
            | none => c.triggered }
      (0, cleanup_entry c1 i)

/-- Helper for phase 3 of `mpv_preload_clear_all`: `cleanup_entry` applied to
slots `0, ..., n-1` in order. -/
def cleanup_all (c : PreloadCache) : Nat → PreloadCache
  | 0 => c
  | n + 1 => cleanup_entry (cleanup_all c n) n

/-- The `mpv_preload_clear_all` (preload.c).  Phase 1 (under lock): set
`cancel_requested` and trigger the token of every occupied entry.  Phase 2
(outside the lock): join every running worker.  Phase 3 (under lock):
`cleanup_entry` on every slot. -/
def mpv_preload_clear_all (c : PreloadCache) : PreloadCache :=
  if !c.initialized then c
  else
    let c1 : PreloadCache :=
      { c with
        entries := c.entries.map (fun e =>
          if e.url.isSome then { e with cancel_requested := true } else e),
        triggered := c.entries.foldr (fun e acc =>
          match e.url, e.cancelTok with
          | some _, some t => t :: acc
          | _, _ => acc) c.triggered }
    let c2 : PreloadCache :=
      { c1 with entries := c1.entries.map (fun e => { e with thread_running := false }) }
    cleanup_all c2 c2.entries.length

/-- The `mpv_preload_set_callback` (preload.c): last writer wins; `false`
models passing NULL to clear the callback. -/
def mpv_preload_set_callback (c : PreloadCache) (cb : Bool) : PreloadCache :=
  { c with g_callback := cb }

/-- One observation of `demux_get_reader_state` inside the monitor loop of
`preload_thread`. -/
structure DemuxPollState where
  fw_bytes : Int
  eof_cached : Bool
deriving DecidableEq, Repr

/-- The engine behaviour seen by one run of `preload_thread`:
whether `create_minimal_global` returns non-NULL, whether `demux_open_url`
succeeds, and the successive reader states observed at each iteration of the
monitor loop that runs before a stop request is observed.  Every real
(terminating) run of the worker corresponds to such a finite script. -/
structure EngineScript where
  global_ok : Bool
  open_ok : Bool
  polls : List DemuxPollState
deriving DecidableEq, Repr

/-- Monitor loop of `preload_thread` (preload.c): the statuses at which
`invoke_callback` fires during the loop.  Mirrors
`if (!target_notified && entry->demuxer) { ... if (fw_bytes >= max_bytes ||
eof_cached) { status = CACHED; invoke_callback; target_notified = true; } }`
per iteration. -/
def preload_monitor_loop (max_bytes : Int) (has_demuxer : Bool) :
    Bool → List DemuxPollState → List PreloadStatus
  | _, [] => []
  | target_notified, s :: rest =>
    if !target_notified ∧ has_demuxer ∧ (max_bytes ≤ s.fw_bytes ∨ s.eof_cached) then
      .CACHED :: preload_monitor_loop max_bytes has_demuxer true rest
    else
      preload_monitor_loop max_bytes has_demuxer target_notified rest

/-- The sequence of statuses at which one run of `preload_thread` invokes
`invoke_callback`, in order.  Each call site sets `entry->status` and then
calls `invoke_callback`: ERROR when `create_minimal_global` fails, ERROR when
`demux_open_url` fails, READY after prefetch starts, then the monitor loop. -/
def preload_thread_statuses (max_bytes : Int) (sc : EngineScript) :
    List PreloadStatus :=
  if !sc.global_ok then [.ERROR]
  else if !sc.open_ok then [.ERROR]
  else .READY :: preload_monitor_loop max_bytes true false sc.polls

/-- The statuses actually delivered to the registered callback: `invoke_callback`
returns immediately when `g_preload_callback == NULL`. -/
def preload_thread_callbacks (cb : Bool) (max_bytes : Int) (sc : EngineScript) :
    List PreloadStatus :=
  if cb then preload_thread_statuses max_bytes sc else []

/-- The successive values taken by `entry->status` over one session: NONE in
the free slot, LOADING written by `mpv_preload_start`, then the worker's
writes (each callback site above writes the status it reports). -/
def session_status_trace (max_bytes : Int) (sc : EngineScript) :
    List PreloadStatus :=
  .NONE :: .LOADING :: preload_thread_statuses max_bytes sc

/-- The poll condition that fires the CACHED transition in the monitor loop. -/
def cached_poll (max_bytes : Int) (s : DemuxPollState) : Bool :=
  decide (max_bytes ≤ s.fw_bytes) || s.eof_cached

/-- Blocking-relevant events of a registry operation, in program order:
mutex acquire/release, `mp_thread_join` of a worker, and engine teardown
(`demux_cancel_and_free`). -/
inductive LockEvent where
  | lock
  | unlock
  | joinWorker
  | engineWork
deriving DecidableEq, Repr

/-- Events performed by `cleanup_entry` on a given entry: join if the worker
runs, then `demux_cancel_and_free` if a demuxer exists.  (Triggering the
token and freeing memory are non-blocking.) -/
def cleanup_entry_events (e : preload_entry) : List LockEvent :=
  if e.url = none then []
  else
    (if e.thread_running then [.joinWorker] else []) ++
      (if e.demuxer.isSome then [.engineWork] else [])

/-- Event trace of `mpv_preload_start` (preload.c): the lock is taken once
and released once; if the table is full, `find_free_slot_locked` runs
`cleanup_entry` on the victim while the lock is held. -/
def mpv_preload_start_events (c : PreloadCache) (url : Option String) :
    List LockEvent :=
  match url with
  | none => []
  | some u =>
    if u = "" then []
    else
      [.lock] ++
        (match find_entry_locked c.entries u with
          | some _ => []
          | none =>
            match find_first_free c.entries with
            | some _ => []
            | none =>
              match find_oldest_aux c.entries 0 none with
              | some (j, _) => cleanup_entry_events (c.entries.getD j zeroEntry)
              | none => []) ++
        [.unlock]

/-- Event trace of `mpv_preload_get_info`: lock and unlock only.  The
`demux_get_reader_state` read inside `fill_preload_info` is a nonblocking
point-in-time snapshot query, not blocking engine work, so it produces no
`engineWork` event; only `demux_cancel_and_free` does. -/
def mpv_preload_get_info_events (c : PreloadCache) : List LockEvent :=
  if !c.initialized then [] else [.lock, .unlock]

/-- Event trace of `mpv_preload_get_demuxer`: on the success path the lock is
released before `mp_thread_join` and re-acquired afterwards. -/
def mpv_preload_get_demuxer_events (c : PreloadCache) (url : String) :
    List LockEvent :=
  if !c.initialized then []
  else
    [.lock] ++
      (match find_entry_locked c.entries url with
        | none => []
        | some i =>
          let e := c.entries.getD i zeroEntry
          if e.status = .NONE ∨ e.status = .ERROR ∨ e.demuxer = none then []
          else if e.thread_running then [.unlock, .joinWorker, .lock] else []) ++
      [.unlock]

/-- Event trace of `mpv_preload_cancel`: the join happens between unlock and
re-lock; the final `cleanup_entry` runs under the lock but with
`thread_running` already false (so it joins nothing) and destroys the
demuxer. -/
def mpv_preload_cancel_events (c : PreloadCache) (url : String) :
    List LockEvent :=
  if !c.initialized then []
  else
    match find_entry_locked c.entries url with
    | none => [.lock, .unlock]
    | some i =>
      let e := c.entries.getD i zeroEntry
      [.lock, .unlock] ++
        (if e.thread_running then [.joinWorker] else []) ++
        [.lock] ++ cleanup_entry_events ({ e with cancel_requested := true, thread_running := false }) ++
        [.unlock]

/-- Event trace of `mpv_preload_clear_all`: phase 1 under the lock is
non-blocking, phase 2 joins every running worker outside the lock, phase 3
cleans every slot under the lock with all `thread_running` flags false. -/
def mpv_preload_clear_all_events (c : PreloadCache) : List LockEvent :=
  if !c.initialized then []
  else
    [.lock, .unlock] ++
      (c.entries.foldr (fun e acc =>
        (if e.thread_running then [.joinWorker] else []) ++ acc) []) ++
      [.lock] ++
      (c.entries.foldr (fun e acc =>
        cleanup_entry_events ({ e with thread_running := false }) ++ acc) []) ++
      [.unlock]

/-- Number of `joinWorker` events performed while the mutex is held, given a
starting hold-depth `d`. -/
def heldJoins : List LockEvent → Nat → Nat
  | [], _ => 0
  | .lock :: r, d => heldJoins r (d + 1)
  | .unlock :: r, d => heldJoins r (d - 1)
  | .joinWorker :: r, d => (if 0 < d then 1 else 0) + heldJoins r d
  | .engineWork :: r, d => heldJoins r d

/-- Number of worker joins an operation performs while holding the mutex. -/
def lockedJoinCount (evs : List LockEvent) : Nat := heldJoins evs 0

/-- Total number of blocking engine-teardown calls
(`demux_cancel_and_free`) in a trace. -/
def engineCount : List LockEvent → Nat
  | [] => 0
  | .lock :: r => engineCount r
  | .unlock :: r => engineCount r
  | .joinWorker :: r => engineCount r
  | .engineWork :: r => 1 + engineCount r

/-- Number of engine-teardown calls performed while the mutex is held,
given a starting hold-depth `d`. -/
def heldEngine : List LockEvent → Nat → Nat
  | [], _ => 0
  | .lock :: r, d => heldEngine r (d + 1)
  | .unlock :: r, d => heldEngine r (d - 1)
  | .joinWorker :: r, d => heldEngine r d
  | .engineWork :: r, d => (if 0 < d then 1 else 0) + heldEngine r d

/-- Number of engine-teardown calls an operation performs while holding the
mutex. -/
def lockedEngineCount (evs : List LockEvent) : Nat := heldEngine evs 0

/-- Abstract registry operations, used to state invariants over arbitrary
operation sequences.  `worker_update` models the writes the worker thread
performs on its own entry (status, engine context, token, demuxer); the
worker never touches `url`. -/
inductive PreloadOp where
  | start (spawn_ok : Bool) (now : Int) (url : Option String) (opts : Option mpv_preload_options)
  | get_demuxer (url : String)
  | cancel (url : String)
  | clear_all
  | set_callback (cb : Bool)
  | worker_update (i : Nat) (st : PreloadStatus) (d g t : Option Nat)
deriving Repr

/-- State transition of one abstract operation (`mpv_preload_get_info` reads
but never writes the registry, so it needs no case here). -/
def stepOp (c : PreloadCache) : PreloadOp → PreloadCache
  | .start ok now url opts => (mpv_preload_start ok now c url opts).2
  | .get_demuxer u => (mpv_preload_get_demuxer c u).2
  | .cancel u => (mpv_preload_cancel c u).2
  | .clear_all => mpv_preload_clear_all c
  | .set_callback b => mpv_preload_set_callback c b
  | .worker_update i st d g t =>
    let e := c.entries.getD i zeroEntry
    let e2 : preload_entry := { e with status := st, demuxer := d, globalCtx := g, cancelTok := t }
    { c with entries := c.entries.set i e2 }

/-- State after running a sequence of operations from the initial state. -/
def runOps (ops : List PreloadOp) : PreloadCache :=
  ops.foldl stepOp initialCache

/-- Number of occupied slots. -/
def occupiedCount (c : PreloadCache) : Nat :=
  (c.entries.filter (fun e => e.url.isSome)).length

/-- Uniqueness of locators in a slot table: no two distinct occupied slots
hold the same url. -/
def uniqUrls (l : List preload_entry) : Prop :=
  ∀ i, i < l.length → ∀ j, j < l.length → i ≠ j →
    (l.getD i zeroEntry).url = none ∨
    (l.getD i zeroEntry).url ≠ (l.getD j zeroEntry).url

instance (l : List preload_entry) : Decidable (uniqUrls l) := by
  unfold uniqUrls
  infer_instance

/-- Uniqueness invariant: no two distinct slots hold the same locator. -/
def uniqueLocators (c : PreloadCache) : Prop :=
  uniqUrls c.entries

instance (c : PreloadCache) : Decidable (uniqueLocators c) := by
  unfold uniqueLocators
  infer_instance

/-- Slot contents after a successful `mpv_preload_start` of url `u`:
LOADING status, fresh creation time, resolved budgets, worker running.
All other fields retain the (freed) slot's residual values, as in the C
code which re-initializes only these fields. -/
def startedSlot (old : preload_entry) (u : String) (now : Int)
    (opts : Option mpv_preload_options) : preload_entry :=
  { old with
    url := some u, status := .LOADING, create_time := now,
    cancel_requested := false, max_bytes := startBudgetBytes opts,
    readahead_secs := startBudgetSecs opts, thread_running := true }

/-- Slot contents after `mp_thread_create` fails in `mpv_preload_start`:
the freshly initialized slot with url freed and cleared and status reset to
NONE (the rollback path). -/
def rolledBackSlot (old : preload_entry) (now : Int)
    (opts : Option mpv_preload_options) : preload_entry :=
  { old with
    url := none, status := .NONE, create_time := now,
    cancel_requested := false, max_bytes := startBudgetBytes opts,
    readahead_secs := startBudgetSecs opts }

/-- Mutex hold-depth after executing a list of events from depth `d`. -/
def depthAfter : List LockEvent → Nat → Nat
  | [], d => d
  | .lock :: r, d => depthAfter r (d + 1)
  | .unlock :: r, d => depthAfter r (d - 1)
  | .joinWorker :: r, d => depthAfter r d
  | .engineWork :: r, d => depthAfter r d

/-- A concrete occupied slot used to exercise the model: a session past the
open step (READY, demuxer present, worker running). -/
def demoEntry (u : String) (tok : Nat) (tm : Int) : preload_entry :=
  { zeroEntry with
    url := some u, globalCtx := some tok, demuxer := some tok,
    cancelTok := some tok, status := .READY, thread_running := true,
    create_time := tm }

/-- A concrete initialized registry around a given slot table. -/
def demoCache (es : List preload_entry) : PreloadCache :=
  { entries := es, initialized := true, triggered := [], g_callback := true }

/-- An initialized registry with one READY session for "a" and three free
slots. -/
def singleCache : PreloadCache :=
  demoCache [demoEntry "a" 1 5, zeroEntry, zeroEntry, zeroEntry]

/-- An initialized registry with all four slots occupied by running
sessions, oldest first. -/
def fullCache : PreloadCache :=
  demoCache [demoEntry "a" 1 1, demoEntry "b" 2 2, demoEntry "c" 3 3,
    demoEntry "d" 4 4]

/-- An initialized registry with four free slots. -/
def freeCache : PreloadCache :=
  demoCache [zeroEntry, zeroEntry, zeroEntry, zeroEntry]

/-- Value of `getD` after `set`: the new element exactly at an in-range
updated index. -/
theorem getD_set_eq_ite {α : Type} (l : List α) (i j : Nat) (a d : α) :
    (l.set i a).getD j d = if i = j ∧ i < l.length then a else l.getD j d := by
  induction l generalizing i j with
  | nil => simp
  | cons x xs ih =>
    cases i with
    | zero =>
      cases j with
      | zero => simp
      | succ j => simp
    | succ i =>
      cases j with
      | zero => simp
      | succ j =>
        simp only [List.set_cons_succ, List.getD_cons_succ, List.length_cons]
        rw [ih]
        simp [Nat.succ_lt_succ_iff]

/-- A successful `find_entry_locked` returns an in-range index whose slot
holds the url. -/
theorem find_entry_some {l : List preload_entry} {u : String} {i : Nat}
    (h : find_entry_locked l u = some i) :
    i < l.length ∧ (l.getD i zeroEntry).url = some u := by
  induction l generalizing i with
  | nil => simp [find_entry_locked] at h
  | cons e rest ih =>
    by_cases he : e.url = some u
    · rw [find_entry_locked, if_pos he] at h
      cases h
      exact ⟨Nat.succ_pos _, by simpa using he⟩
    · rw [find_entry_locked, if_neg he] at h
      cases hr : find_entry_locked rest u with
      | none => rw [hr] at h; simp at h
      | some i' =>
        rw [hr] at h
        simp only [Option.map_some'] at h
        cases h
        obtain ⟨h1, h2⟩ := ih hr
        exact ⟨Nat.succ_lt_succ h1, by simpa using h2⟩

/-- The `find_entry_locked` fails exactly when no slot holds the url. -/
theorem find_entry_none {l : List preload_entry} {u : String} :
    find_entry_locked l u = none ↔
      ∀ i, i < l.length → (l.getD i zeroEntry).url ≠ some u := by
  induction l with
  | nil => simp [find_entry_locked]
  | cons e rest ih =>
    by_cases he : e.url = some u
    · constructor
      · intro h
        rw [find_entry_locked, if_pos he] at h
        exact absurd h (by simp)
      · intro h
        exact absurd he (by simpa using h 0 (Nat.succ_pos _))
    · rw [find_entry_locked, if_neg he, Option.map_eq_none', ih]
      constructor
      · intro h i hi
        cases i with
        | zero => simpa using he
        | succ i => simpa using h i (Nat.lt_of_succ_lt_succ hi)
      · intro h i hi
        simpa using h (i + 1) (Nat.succ_lt_succ hi)

/-- A successful `find_first_free` returns an in-range free slot. -/
theorem find_first_free_some {l : List preload_entry} {i : Nat}
    (h : find_first_free l = some i) :
    i < l.length ∧ (l.getD i zeroEntry).url = none := by
  induction l generalizing i with
  | nil => simp [find_first_free] at h
  | cons e rest ih =>
    by_cases he : e.url = none
    · rw [find_first_free, if_pos he] at h
      cases h
      exact ⟨Nat.succ_pos _, by simpa using he⟩
    · rw [find_first_free, if_neg he] at h
      cases hr : find_first_free rest with
      | none => rw [hr] at h; simp at h
      | some i' =>
        rw [hr] at h
        simp only [Option.map_some'] at h
        cases h
        obtain ⟨h1, h2⟩ := ih hr
        exact ⟨Nat.succ_lt_succ h1, by simpa using h2⟩

/-- The `find_first_free` fails exactly when every slot is occupied. -/
theorem find_first_free_none {l : List preload_entry} :
    find_first_free l = none ↔
      ∀ i, i < l.length → (l.getD i zeroEntry).url ≠ none := by
  induction l with
  | nil => simp [find_first_free]
  | cons e rest ih =>
    by_cases he : e.url = none
    · constructor
      · intro h
        rw [find_first_free, if_pos he] at h
        exact absurd h (by simp)
      · intro h
        exact absurd he (by simpa using h 0 (Nat.succ_pos _))
    · rw [find_first_free, if_neg he, Option.map_eq_none', ih]
      constructor
      · intro h i hi
        cases i with
        | zero => simpa using he
        | succ i => simpa using h i (Nat.lt_of_succ_lt_succ hi)
      · intro h i hi
        simpa using h (i + 1) (Nat.succ_lt_succ hi)

/-- Invariant of the oldest-entry scan: starting from a candidate `(j, t)`,
the scan returns a global minimum; either the candidate survives (nothing in
the list is strictly older) or the result is the first strictly-older
position, with absolute index `i + m`. -/
theorem find_oldest_aux_go (l : List preload_entry) :
    ∀ (i j : Nat) (t : Int),
    ∃ j' t', find_oldest_aux l i (some (j, t)) = some (j', t') ∧ t' ≤ t ∧
      (∀ m, m < l.length → t' ≤ (l.getD m zeroEntry).create_time) ∧
      ((j' = j ∧ t' = t ∧ ∀ m, m < l.length → t ≤ (l.getD m zeroEntry).create_time) ∨
       (∃ m, m < l.length ∧ j' = i + m ∧ t' = (l.getD m zeroEntry).create_time ∧ t' < t ∧
         ∀ k, k < m → t' < (l.getD k zeroEntry).create_time)) := by
  induction l with
  | nil =>
    intro i j t
    exact ⟨j, t, rfl, le_refl t, by simp, Or.inl ⟨rfl, rfl, by simp⟩⟩
  | cons e rest ih =>
    intro i j t
    by_cases hlt : e.create_time < t
    · obtain ⟨j', t', heq, hle, hmin, hcase⟩ := ih (i + 1) i e.create_time
      refine ⟨j', t', ?_, le_trans hle (le_of_lt hlt), ?_, ?_⟩
      · rw [find_oldest_aux, if_pos hlt]
        exact heq
      · intro m hm
        cases m with
        | zero => simpa using hle
        | succ m => simpa using hmin m (Nat.lt_of_succ_lt_succ hm)
      · refine Or.inr ?_
        rcases hcase with ⟨hj', ht', _⟩ | ⟨m, hm, hj', ht', hlt', hks⟩
        · exact ⟨0, Nat.succ_pos _, by omega, by simpa using ht', by rw [ht']; exact hlt,
            fun k hk => absurd hk (Nat.not_lt_zero k)⟩
        · refine ⟨m + 1, Nat.succ_lt_succ hm, by omega, by simpa using ht',
            lt_trans hlt' hlt, ?_⟩
          intro k hk
          cases k with
          | zero => simpa using hlt'
          | succ k => simpa using hks k (Nat.lt_of_succ_lt_succ hk)
    · obtain ⟨j', t', heq, hle, hmin, hcase⟩ := ih (i + 1) j t
      have het : t ≤ e.create_time := le_of_not_lt hlt
      refine ⟨j', t', ?_, hle, ?_, ?_⟩
      · rw [find_oldest_aux, if_neg hlt]
        exact heq
      · intro m hm
        cases m with
        | zero => simpa using le_trans hle het
        | succ m => simpa using hmin m (Nat.lt_of_succ_lt_succ hm)
      · rcases hcase with ⟨hj', ht', hall⟩ | ⟨m, hm, hj', ht', hlt', hks⟩
        · refine Or.inl ⟨hj', ht', ?_⟩
          intro m hm
          cases m with
          | zero => simpa using het
          | succ m => simpa using hall m (Nat.lt_of_succ_lt_succ hm)
        · refine Or.inr ⟨m + 1, Nat.succ_lt_succ hm, by omega, by simpa using ht',
            hlt', ?_⟩
          intro k hk
          cases k with
          | zero => simpa using lt_of_lt_of_le hlt' het
          | succ k => simpa using hks k (Nat.lt_of_succ_lt_succ hk)

/-- Specification of the eviction scan on a nonempty table: it returns the
occupied slot with the smallest creation timestamp; every strictly earlier
slot is strictly younger, i.e. ties are broken towards the smallest index. -/
theorem find_oldest_spec (l : List preload_entry) (hne : l ≠ []) :
    ∃ j, find_oldest_aux l 0 none = some (j, (l.getD j zeroEntry).create_time) ∧
      j < l.length ∧
      (∀ m, m < l.length →
        (l.getD j zeroEntry).create_time ≤ (l.getD m zeroEntry).create_time) ∧
      (∀ k, k < j →
        (l.getD j zeroEntry).create_time < (l.getD k zeroEntry).create_time) := by
  match l, hne with
  | e :: rest, _ =>
    obtain ⟨j', t', heq, hle, hmin, hcase⟩ := find_oldest_aux_go rest 1 0 e.create_time
    have hstep : find_oldest_aux (e :: rest) 0 none =
        find_oldest_aux rest 1 (some (0, e.create_time)) := by
      rw [find_oldest_aux]
    rcases hcase with ⟨hj', ht', hall⟩ | ⟨m, hm, hj', ht', hlt', hks⟩
    · refine ⟨0, ?_, Nat.succ_pos _, ?_, ?_⟩
      · rw [hstep, heq, hj', ht']
        simp
      · intro k hk
        cases k with
        | zero => simp
        | succ k => simpa using hall k (Nat.lt_of_succ_lt_succ hk)
      · intro k hk
        exact absurd hk (Nat.not_lt_zero k)
    · refine ⟨1 + m, ?_, by simp only [List.length_cons]; omega, ?_, ?_⟩
      · rw [hstep, heq, hj']
        have : ((e :: rest).getD (1 + m) zeroEntry).create_time = t' := by
          rw [Nat.add_comm]
          simpa using ht'.symm
        rw [this]
      · intro k hk
        have hgd : ((e :: rest).getD (1 + m) zeroEntry).create_time = t' := by
          rw [Nat.add_comm]
          simpa using ht'.symm
        rw [hgd]
        cases k with
        | zero => simpa using le_of_lt hlt'
        | succ k => simpa using hmin k (Nat.lt_of_succ_lt_succ hk)
      · intro k hk
        have hgd : ((e :: rest).getD (1 + m) zeroEntry).create_time = t' := by
          rw [Nat.add_comm]
          simpa using ht'.symm
        rw [hgd]
        cases k with
        | zero => simpa using hlt'
        | succ k =>
          have : k < m := by omega
          simpa using hks k this

/-- Replacing a slot by a free entry preserves locator uniqueness. -/
theorem uniqUrls_set_none {l : List preload_entry} {i : Nat} {e' : preload_entry}
    (h : uniqUrls l) (he : e'.url = none) : uniqUrls (l.set i e') := by
  intro a ha b hb hab
  rw [List.length_set] at ha hb
  rw [getD_set_eq_ite, getD_set_eq_ite]
  by_cases hia : i = a ∧ i < l.length
  · rw [if_pos hia]
    exact Or.inl he
  · rw [if_neg hia]
    by_cases hib : i = b ∧ i < l.length
    · rw [if_pos hib]
      cases hu : (l.getD a zeroEntry).url with
      | none => exact Or.inl rfl
      | some x =>
        refine Or.inr ?_
        rw [he]
        simp
    · rw [if_neg hib]
      exact h a ha b hb hab

/-- Inserting a locator not present anywhere preserves uniqueness. -/
theorem uniqUrls_set_fresh {l : List preload_entry} {i : Nat} {e' : preload_entry}
    {u : String} (h : uniqUrls l)
    (hf : ∀ k, k < l.length → (l.getD k zeroEntry).url ≠ some u)
    (he : e'.url = some u) : uniqUrls (l.set i e') := by
  intro a ha b hb hab
  rw [List.length_set] at ha hb
  rw [getD_set_eq_ite, getD_set_eq_ite]
  by_cases hia : i = a ∧ i < l.length
  · rw [if_pos hia]
    have hib : ¬(i = b ∧ i < l.length) := by
      intro hib
      exact hab (hia.1 ▸ hib.1)
    rw [if_neg hib]
    refine Or.inr ?_
    rw [he]
    intro hcontra
    exact hf b hb hcontra.symm
  · rw [if_neg hia]
    by_cases hib : i = b ∧ i < l.length
    · rw [if_pos hib, he]
      exact Or.inr (hf a ha)
    · rw [if_neg hib]
      exact h a ha b hb hab

/-- A pointwise url-preserving rewrite of the table preserves uniqueness. -/
theorem uniqUrls_of_urls_eq {l l' : List preload_entry}
    (hlen : l'.length = l.length)
    (hurl : ∀ k, k < l.length →
      (l'.getD k zeroEntry).url = (l.getD k zeroEntry).url)
    (h : uniqUrls l) : uniqUrls l' := by
  intro a ha b hb hab
  rw [hlen] at ha hb
  rw [hurl a ha, hurl b hb]
  exact h a ha b hb hab

/-- The `getD` through `map` at an in-range index. -/
theorem getD_map (f : preload_entry → preload_entry) (l : List preload_entry)
    (k : Nat) (hk : k < l.length) (d : preload_entry) :
    (l.map f).getD k d = f (l.getD k d) := by
  induction l generalizing k with
  | nil => simp at hk
  | cons e rest ih =>
    cases k with
    | zero => simp
    | succ k => simpa using ih k (Nat.lt_of_succ_lt_succ hk)

/-- The slot table after `cleanup_entry`: unchanged, or the slot zeroed. -/
theorem cleanup_entry_entries (c : PreloadCache) (j : Nat) :
    (cleanup_entry c j).entries = c.entries ∨
    (cleanup_entry c j).entries = c.entries.set j zeroEntry := by
  unfold cleanup_entry
  by_cases h : (c.entries[j]?.getD zeroEntry).url = none
  · left
    simp [h]
  · right
    simp [h]

/-- The `cleanup_entry` never removes a token from the triggered set. -/
theorem cleanup_entry_triggered_mono (c : PreloadCache) (j : Nat) (t : Nat)
    (ht : t ∈ c.triggered) : t ∈ (cleanup_entry c j).triggered := by
  unfold cleanup_entry
  by_cases h : (c.entries[j]?.getD zeroEntry).url = none
  · simpa [h] using ht
  · cases htok : (c.entries[j]?.getD zeroEntry).cancelTok with
    | none => simpa [h, htok] using ht
    | some t' => simp [h, htok, List.mem_cons, ht]

/-- The `cleanup_entry` on an occupied slot triggers its cancel token. -/
theorem cleanup_entry_triggers (c : PreloadCache) (j : Nat) (t : Nat)
    (hurl : (c.entries.getD j zeroEntry).url ≠ none)
    (htok : (c.entries.getD j zeroEntry).cancelTok = some t) :
    t ∈ (cleanup_entry c j).triggered := by
  rw [List.getD_eq_getElem?_getD] at hurl htok
  unfold cleanup_entry
  simp only [List.getD_eq_getElem?_getD]
  simp [hurl, htok]

/-- The `cleanup_entry` preserves the table length. -/
theorem length_cleanup (c : PreloadCache) (j : Nat) :
    (cleanup_entry c j).entries.length = c.entries.length := by
  rcases cleanup_entry_entries c j with h | h <;> simp [h]

/-- The `cleanup_entry` preserves locator uniqueness. -/
theorem uniq_cleanup (c : PreloadCache) (j : Nat) (h : uniqueLocators c) :
    uniqueLocators (cleanup_entry c j) := by
  unfold uniqueLocators at h ⊢
  rcases cleanup_entry_entries c j with heq | heq <;> rw [heq]
  · exact h
  · exact uniqUrls_set_none h rfl

/-- The `cleanup_entry` never introduces a url. -/
theorem cleanup_no_url {c : PreloadCache} {u : String} (j : Nat)
    (hf : ∀ k, k < c.entries.length → (c.entries.getD k zeroEntry).url ≠ some u) :
    ∀ k, k < (cleanup_entry c j).entries.length →
      ((cleanup_entry c j).entries.getD k zeroEntry).url ≠ some u := by
  intro k hk
  rcases cleanup_entry_entries c j with heq | heq <;> rw [heq] at hk ⊢
  · exact hf k hk
  · rw [List.length_set] at hk
    rw [getD_set_eq_ite]
    by_cases hj : j = k ∧ j < c.entries.length
    · rw [if_pos hj]
      simp [zeroEntry]
    · rw [if_neg hj]
      exact hf k hk

/-- The `cleanup_all` preserves the table length. -/
theorem length_cleanup_all (c : PreloadCache) :
    ∀ n, (cleanup_all c n).entries.length = c.entries.length := by
  intro n
  induction n with
  | zero => rfl
  | succ n ih => rw [cleanup_all, length_cleanup, ih]

/-- The `cleanup_all` preserves locator uniqueness. -/
theorem uniq_cleanup_all (c : PreloadCache) (h : uniqueLocators c) :
    ∀ n, uniqueLocators (cleanup_all c n) := by
  intro n
  induction n with
  | zero => exact h
  | succ n ih => exact uniq_cleanup _ _ ih

/-- On a nonempty table `find_free_slot_locked` always produces a slot:
either the first free slot (state unchanged) or the evicted oldest slot. -/
theorem find_free_slot_some (c : PreloadCache) (hne : c.entries ≠ []) :
    ∃ i c1, find_free_slot_locked c = (some i, c1) ∧ i < c.entries.length ∧
      c1.entries.length = c.entries.length ∧
      ((c1 = c ∧ (c.entries.getD i zeroEntry).url = none) ∨
       (c1 = cleanup_entry c i ∧ find_first_free c.entries = none)) := by
  unfold find_free_slot_locked
  cases hff : find_first_free c.entries with
  | some i =>
    obtain ⟨h1, h2⟩ := find_first_free_some hff
    exact ⟨i, c, rfl, h1, rfl, Or.inl ⟨rfl, h2⟩⟩
  | none =>
    obtain ⟨j, heq, hj, _, _⟩ := find_oldest_spec c.entries hne
    rw [heq]
    exact ⟨j, cleanup_entry c j, rfl, hj, length_cleanup c j, Or.inr ⟨rfl, rfl⟩⟩

/-- Complete branch analysis of `mpv_preload_get_demuxer`: either the
precondition holds at the first matching slot and the handoff frame is
applied, or the call returns NULL with the state untouched. -/
theorem get_demuxer_spec (c : PreloadCache) (u : String) :
    (∃ i, find_entry_locked c.entries u = some i ∧ c.initialized = true ∧
      (c.entries.getD i zeroEntry).demuxer ≠ none ∧
      (c.entries.getD i zeroEntry).status ≠ .NONE ∧
      (c.entries.getD i zeroEntry).status ≠ .ERROR ∧
      mpv_preload_get_demuxer c u =
        ((c.entries.getD i zeroEntry).demuxer,
         { c with entries :=
            c.entries.set i (claimedEntry (c.entries.getD i zeroEntry)) })) ∨
    ((mpv_preload_get_demuxer c u).1 = none ∧ mpv_preload_get_demuxer c u = (none, c)) := by
  cases hinit : c.initialized with
  | false =>
    right
    constructor <;> simp [mpv_preload_get_demuxer, hinit]
  | true =>
    cases hfe : find_entry_locked c.entries u with
    | none =>
      right
      constructor <;> simp [mpv_preload_get_demuxer, hinit, hfe]
    | some i =>
      by_cases hcond : (c.entries.getD i zeroEntry).status = .NONE ∨
          (c.entries.getD i zeroEntry).status = .ERROR ∨
          (c.entries.getD i zeroEntry).demuxer = none
      · right
        simp only [List.getD_eq_getElem?_getD] at hcond
        constructor <;> simp [mpv_preload_get_demuxer, hinit, hfe, hcond]
      · push_neg at hcond
        obtain ⟨h1, h2, h3⟩ := hcond
        have hn : ¬((c.entries.getD i zeroEntry).status = PreloadStatus.NONE ∨
            (c.entries.getD i zeroEntry).status = PreloadStatus.ERROR ∨
            (c.entries.getD i zeroEntry).demuxer = none) := by
          push_neg
          exact ⟨h1, h2, h3⟩
        refine Or.inl ⟨i, rfl, rfl, h3, h1, h2, ?_⟩
        simp only [List.getD_eq_getElem?_getD] at hn
        simp [mpv_preload_get_demuxer, hinit, hfe, hn]

/-- The `mpv_preload_start` with a NULL url pointer: rejected, state untouched. -/
theorem start_null_url (spawn_ok : Bool) (now : Int) (c : PreloadCache)
    (opts : Option mpv_preload_options) :
    mpv_preload_start spawn_ok now c none opts = (.rejected, c) := rfl

/-- The `mpv_preload_start` with an empty url: rejected, state untouched. -/
theorem start_empty_url (spawn_ok : Bool) (now : Int) (c : PreloadCache)
    (opts : Option mpv_preload_options) :
    mpv_preload_start spawn_ok now c (some "") opts = (.rejected, c) := by
  simp [mpv_preload_start]

/-- The `mpv_preload_start` when the locator is already present: the
"already preloading" branch, no slot-table mutation (only the one-time
`ensure_initialized`). -/
theorem start_already_active (spawn_ok : Bool) (now : Int) (c : PreloadCache)
    (u : String) (opts : Option mpv_preload_options) (i : Nat) (hu : u ≠ "")
    (hfe : find_entry_locked c.entries u = some i) :
    mpv_preload_start spawn_ok now c (some u) opts =
      (.already_active, { c with initialized := true }) := by
  have hcc : ({ c with initialized := true } : PreloadCache).entries = c.entries := rfl
  simp only [mpv_preload_start, if_neg hu, hcc, hfe]

/-- The `mpv_preload_start` on a fresh locator, given the slot returned by
`find_free_slot_locked`: the slot is initialized with LOADING status and
resolved budgets; on spawn success `thread_running` is set, on spawn failure
the url and status are rolled back. -/
theorem start_insert_eq (spawn_ok : Bool) (now : Int) (c : PreloadCache)
    (u : String) (opts : Option mpv_preload_options) (hu : u ≠ "")
    (hfe : find_entry_locked c.entries u = none)
    {i : Nat} {c1 : PreloadCache}
    (hfs : find_free_slot_locked { c with initialized := true } = (some i, c1)) :
    mpv_preload_start spawn_ok now c (some u) opts =
      (if spawn_ok then StartResult.ok else StartResult.no_slot,
       { c1 with entries :=
          c1.entries.set i (if spawn_ok
            then startedSlot (c1.entries.getD i zeroEntry) u now opts
            else rolledBackSlot (c1.entries.getD i zeroEntry) now opts) }) := by
  have hcc : ({ c with initialized := true } : PreloadCache).entries = c.entries := rfl
  simp only [mpv_preload_start, if_neg hu, hcc, hfe, hfs]
  cases spawn_ok <;> simp [startedSlot, rolledBackSlot]

/-- The `mpv_preload_start` on a fresh locator when no slot can be produced
(only possible on an empty table in the model). -/
theorem start_no_free (spawn_ok : Bool) (now : Int) (c : PreloadCache)
    (u : String) (opts : Option mpv_preload_options) (hu : u ≠ "")
    (hfe : find_entry_locked c.entries u = none)
    {c1 : PreloadCache}
    (hfs : find_free_slot_locked { c with initialized := true } = (none, c1)) :
    mpv_preload_start spawn_ok now c (some u) opts = (.no_slot, c1) := by
  have hcc : ({ c with initialized := true } : PreloadCache).entries = c.entries := rfl
  simp only [mpv_preload_start, if_neg hu, hcc, hfe, hfs]

/-- The `mpv_preload_start` preserves the slot-table length. -/
theorem length_start (spawn_ok : Bool) (now : Int) (c : PreloadCache)
    (url : Option String) (opts : Option mpv_preload_options) :
    (mpv_preload_start spawn_ok now c url opts).2.entries.length =
      c.entries.length := by
  cases url with
  | none => rfl
  | some u =>
    by_cases hu : u = ""
    · rw [hu, start_empty_url]
    · cases hfe : find_entry_locked c.entries u with
      | some i => rw [start_already_active spawn_ok now c u opts i hu hfe]
      | none =>
        by_cases hne : c.entries = []
        · have hfs : find_free_slot_locked { c with initialized := true } =
              (none, { c with initialized := true }) := by
            simp [find_free_slot_locked, find_first_free, find_oldest_aux, hne]
          rw [start_no_free spawn_ok now c u opts hu hfe hfs]
        · obtain ⟨i, c1, hfs, hi, hlen1, hcase⟩ :=
            find_free_slot_some { c with initialized := true } (by simpa using hne)
          rw [start_insert_eq spawn_ok now c u opts hu hfe hfs]
          simpa using hlen1

/-- The `mpv_preload_start` preserves locator uniqueness. -/
theorem uniq_start (spawn_ok : Bool) (now : Int) (c : PreloadCache)
    (url : Option String) (opts : Option mpv_preload_options)
    (h : uniqueLocators c) :
    uniqueLocators (mpv_preload_start spawn_ok now c url opts).2 := by
  cases url with
  | none => exact h
  | some u =>
    by_cases hu : u = ""
    · rw [hu, start_empty_url]
      exact h
    · cases hfe : find_entry_locked c.entries u with
      | some i =>
        rw [start_already_active spawn_ok now c u opts i hu hfe]
        exact h
      | none =>
        by_cases hne : c.entries = []
        · have hfs : find_free_slot_locked { c with initialized := true } =
              (none, { c with initialized := true }) := by
            simp [find_free_slot_locked, find_first_free, find_oldest_aux, hne]
          rw [start_no_free spawn_ok now c u opts hu hfe hfs]
          exact h
        · obtain ⟨i, c1, hfs, hi, hlen1, hcase⟩ :=
            find_free_slot_some { c with initialized := true } (by simpa using hne)
          rw [start_insert_eq spawn_ok now c u opts hu hfe hfs]
          have huniq1 : uniqueLocators c1 := by
            rcases hcase with ⟨hc1, _⟩ | ⟨hc1, _⟩
            · rw [hc1]
              exact h
            · rw [hc1]
              exact uniq_cleanup _ i h
          have hfree1 : ∀ k, k < c1.entries.length →
              (c1.entries.getD k zeroEntry).url ≠ some u := by
            have hf0 : ∀ k, k < c.entries.length →
                (c.entries.getD k zeroEntry).url ≠ some u := find_entry_none.mp hfe
            rcases hcase with ⟨hc1, _⟩ | ⟨hc1, _⟩
            · rw [hc1]
              exact hf0
            · rw [hc1]
              exact cleanup_no_url i hf0
          cases spawn_ok with
          | true =>
            simp only [if_pos]
            exact uniqUrls_set_fresh huniq1 hfree1 rfl
          | false =>
            simp only [Bool.false_eq_true, if_false]
            exact uniqUrls_set_none huniq1 rfl

/-- The `mpv_preload_get_demuxer` preserves the slot-table length. -/
theorem length_get_demuxer (c : PreloadCache) (u : String) :
    (mpv_preload_get_demuxer c u).2.entries.length = c.entries.length := by
  rcases get_demuxer_spec c u with ⟨i, _, _, _, _, _, heq⟩ | ⟨_, heq⟩ <;> rw [heq] <;> simp

/-- The `mpv_preload_get_demuxer` preserves locator uniqueness. -/
theorem uniq_get_demuxer (c : PreloadCache) (u : String) (h : uniqueLocators c) :
    uniqueLocators (mpv_preload_get_demuxer c u).2 := by
  rcases get_demuxer_spec c u with ⟨i, _, _, _, _, _, heq⟩ | ⟨_, heq⟩ <;> rw [heq]
  · exact uniqUrls_set_none h rfl
  · exact h

/-- The `mpv_preload_cancel` preserves the slot-table length. -/
theorem length_cancel (c : PreloadCache) (u : String) :
    (mpv_preload_cancel c u).2.entries.length = c.entries.length := by
  cases hinit : c.initialized with
  | false => simp [mpv_preload_cancel, hinit]
  | true =>
    cases hfe : find_entry_locked c.entries u with
    | none => simp [mpv_preload_cancel, hinit, hfe]
    | some i => simp [mpv_preload_cancel, hinit, hfe, length_cleanup]

/-- The `mpv_preload_cancel` preserves locator uniqueness. -/
theorem uniq_cancel (c : PreloadCache) (u : String) (h : uniqueLocators c) :
    uniqueLocators (mpv_preload_cancel c u).2 := by
  cases hinit : c.initialized with
  | false => simpa [mpv_preload_cancel, hinit] using h
  | true =>
    cases hfe : find_entry_locked c.entries u with
    | none => simpa [mpv_preload_cancel, hinit, hfe] using h
    | some i =>
      have hset : uniqUrls (c.entries.set i
          ({ c.entries.getD i zeroEntry with
             cancel_requested := true, thread_running := false })) := by
        refine uniqUrls_of_urls_eq ?_ ?_ h
        · simp
        · intro k hk
          rw [getD_set_eq_ite]
          by_cases hik : i = k ∧ i < c.entries.length
          · rw [if_pos hik, hik.1]
          · rw [if_neg hik]
      simp only [mpv_preload_cancel, hinit, hfe]
      exact uniq_cleanup _ i hset

/-- The `mpv_preload_clear_all` preserves the slot-table length. -/
theorem length_clear_all (c : PreloadCache) :
    (mpv_preload_clear_all c).entries.length = c.entries.length := by
  cases hinit : c.initialized with
  | false => simp [mpv_preload_clear_all, hinit]
  | true => simp [mpv_preload_clear_all, hinit, length_cleanup_all]

/-- The `mpv_preload_clear_all` preserves locator uniqueness. -/
theorem uniq_clear_all (c : PreloadCache) (h : uniqueLocators c) :
    uniqueLocators (mpv_preload_clear_all c) := by
  cases hinit : c.initialized with
  | false => simpa [mpv_preload_clear_all, hinit] using h
  | true =>
    have h1 : uniqUrls (((c.entries.map (fun e =>
        if e.url.isSome then { e with cancel_requested := true } else e)).map
          (fun e => { e with thread_running := false }))) := by
      refine uniqUrls_of_urls_eq ?_ ?_ h
      · simp
      · intro k hk
        rw [getD_map _ _ k (by simpa using hk), getD_map _ _ k hk]
        by_cases hcase : (c.entries.getD k zeroEntry).url.isSome
        all_goals simp only [List.getD_eq_getElem?_getD] at hcase
        · simp [hcase]
        · simp [hcase]
    simp only [mpv_preload_clear_all, hinit]
    refine uniq_cleanup_all _ ?_ _
    exact h1

/-- The `stepOp` preserves the slot-table length. -/
theorem length_stepOp (c : PreloadCache) (op : PreloadOp) :
    (stepOp c op).entries.length = c.entries.length := by
  cases op with
  | start spawn_ok now url opts => exact length_start spawn_ok now c url opts
  | get_demuxer u => exact length_get_demuxer c u
  | cancel u => exact length_cancel c u
  | clear_all => exact length_clear_all c
  | set_callback b => rfl
  | worker_update i st d g t => simp [stepOp]

/-- The `stepOp` preserves locator uniqueness. -/
theorem uniq_stepOp (c : PreloadCache) (op : PreloadOp) (h : uniqueLocators c) :
    uniqueLocators (stepOp c op) := by
  cases op with
  | start spawn_ok now url opts => exact uniq_start spawn_ok now c url opts h
  | get_demuxer u => exact uniq_get_demuxer c u h
  | cancel u => exact uniq_cancel c u h
  | clear_all => exact uniq_clear_all c h
  | set_callback b => exact h
  | worker_update i st d g t =>
    refine uniqUrls_of_urls_eq ?_ ?_ h
    · simp [stepOp]
    · intro k hk
      simp only [stepOp]
      rw [getD_set_eq_ite]
      by_cases hik : i = k ∧ i < c.entries.length
      · rw [if_pos hik, hik.1]
      · rw [if_neg hik]

/-- Invariance of a predicate along a fold of `stepOp`. -/
theorem stepOp_foldl_invariant (P : PreloadCache → Prop)
    (hstep : ∀ c op, P c → P (stepOp c op)) :
    ∀ (ops : List PreloadOp) (c : PreloadCache), P c → P (ops.foldl stepOp c) := by
  intro ops
  induction ops with
  | nil => intro c hc; exact hc
  | cons op rest ih => intro c hc; exact ih _ (hstep c op hc)

/-- Any operation sequence preserves the 4-slot table length. -/
theorem runOps_length (ops : List PreloadOp) :
    (runOps ops).entries.length = MPV_PRELOAD_MAX_ENTRIES := by
  refine stepOp_foldl_invariant
    (fun c => c.entries.length = MPV_PRELOAD_MAX_ENTRIES) ?_ ops initialCache (by simp [initialCache])
  intro c op hc
  rw [length_stepOp, hc]

/-- Any operation sequence preserves locator uniqueness. -/
theorem runOps_uniq (ops : List PreloadOp) : uniqueLocators (runOps ops) := by
  refine stepOp_foldl_invariant uniqueLocators uniq_stepOp ops initialCache ?_
  decide

/-- After the CACHED edge has fired, the monitor loop never notifies again. -/
theorem monitor_after_notified (mb : Int) (hd : Bool) :
    ∀ polls : List DemuxPollState,
      preload_monitor_loop mb hd true polls = [] := by
  intro polls
  induction polls with
  | nil => rfl
  | cons s rest ih =>
    rw [preload_monitor_loop]
    rw [if_neg (by simp)]
    exact ih

/-- The monitor loop starting un-notified emits exactly one CACHED if some
poll meets the cache target, and nothing otherwise. -/
theorem monitor_false_eq (mb : Int) :
    ∀ polls : List DemuxPollState,
      preload_monitor_loop mb true false polls =
        (if polls.any (cached_poll mb) then [.CACHED] else []) := by
  intro polls
  induction polls with
  | nil => rfl
  | cons s rest ih =>
    by_cases hq : mb ≤ s.fw_bytes ∨ s.eof_cached = true
    · have hb : cached_poll mb s = true := by
        rcases hq with h | h <;> simp [cached_poll, h]
      rw [preload_monitor_loop, if_pos (by simpa using hq)]
      rw [monitor_after_notified]
      simp [List.any_cons, hb]
    · have hb : cached_poll mb s = false := by
        push_neg at hq
        simp [cached_poll, hq.1, hq.2, not_le.mpr hq.1]
      rw [preload_monitor_loop, if_neg (by simpa using hq)]
      rw [ih]
      simp [List.any_cons, hb]

/-- CACHED fires exactly while processing the first qualifying poll: no
notification is emitted over the polls strictly before it, and the
notification list over the polls up to and including it is `[CACHED]`. -/
theorem monitor_first_qualifying (mb : Int) :
    ∀ (polls : List DemuxPollState) (k : Nat), k < polls.length →
      cached_poll mb (polls.getD k ⟨0, false⟩) = true →
      (∀ j, j < k → cached_poll mb (polls.getD j ⟨0, false⟩) = false) →
      preload_monitor_loop mb true false (polls.take k) = [] ∧
      preload_monitor_loop mb true false (polls.take (k + 1)) = [.CACHED] := by
  intro polls
  induction polls with
  | nil =>
    intro k hk
    exact absurd hk (by simp)
  | cons s rest ih =>
    intro k hk hq hbefore
    cases k with
    | zero =>
      refine ⟨rfl, ?_⟩
      have hq0 : mb ≤ s.fw_bytes ∨ s.eof_cached = true := by
        simpa [cached_poll, decide_eq_true_eq] using hq
      simp only [List.take_succ_cons, List.take_zero]
      rw [preload_monitor_loop, if_pos (by simpa using hq0)]
      rw [monitor_after_notified]
    | succ k =>
      have hs : cached_poll mb s = false := by simpa using hbefore 0 (Nat.succ_pos _)
      have hsprop : ¬(mb ≤ s.fw_bytes ∨ s.eof_cached = true) := by
        intro hq0
        have : cached_poll mb s = true := by
          rcases hq0 with h | h <;> simp [cached_poll, h]
        rw [this] at hs
        exact absurd hs (by simp)
      obtain ⟨ih1, ih2⟩ := ih k (by simpa using hk) (by simpa using hq)
        (fun j hj => by simpa using hbefore (j + 1) (Nat.succ_lt_succ hj))
      constructor
      · simp only [List.take_succ_cons]
        rw [preload_monitor_loop, if_neg (by simpa using hsprop)]
        exact ih1
      · simp only [List.take_succ_cons]
        rw [preload_monitor_loop, if_neg (by simpa using hsprop)]
        exact ih2

/-- The three possible notification sequences of one worker run. -/
theorem preload_thread_statuses_cases (mb : Int) (sc : EngineScript) :
    preload_thread_statuses mb sc = [.ERROR] ∨
    preload_thread_statuses mb sc = [.READY] ∨
    preload_thread_statuses mb sc = [.READY, .CACHED] := by
  unfold preload_thread_statuses
  cases hg : sc.global_ok with
  | false => simp
  | true =>
    cases ho : sc.open_ok with
    | false => simp
    | true =>
      rw [monitor_false_eq]
      by_cases hq : sc.polls.any (cached_poll mb) = true
      · rw [if_pos hq]
        simp
      · rw [if_neg hq]
        simp

/-- Hold-depth-aware decomposition of `heldJoins` over concatenation. -/
theorem heldJoins_append :
    ∀ (a b : List LockEvent) (d : Nat),
      heldJoins (a ++ b) d = heldJoins a d + heldJoins b (depthAfter a d) := by
  intro a
  induction a with
  | nil => intro b d; simp [heldJoins, depthAfter]
  | cons e r ih =>
    intro b d
    cases e with
    | lock => simpa [heldJoins, depthAfter] using ih b (d + 1)
    | unlock => simpa [heldJoins, depthAfter] using ih b (d - 1)
    | joinWorker =>
      by_cases h0 : 0 < d <;>
        simp [heldJoins, depthAfter, h0, ih b d, Nat.add_assoc]
    | engineWork => simpa [heldJoins, depthAfter] using ih b d

/-- Events without any join contribute nothing at any depth. -/
theorem heldJoins_no_join (l : List LockEvent)
    (hl : ∀ e ∈ l, e ≠ LockEvent.joinWorker) : ∀ d, heldJoins l d = 0 := by
  induction l with
  | nil => intro d; rfl
  | cons e r ih =>
    intro d
    cases e with
    | lock => exact ih (fun x hx => hl x (List.mem_cons_of_mem _ hx)) (d + 1)
    | unlock => exact ih (fun x hx => hl x (List.mem_cons_of_mem _ hx)) (d - 1)
    | joinWorker => exact absurd rfl (hl _ (List.mem_cons_self _ _))
    | engineWork => exact ih (fun x hx => hl x (List.mem_cons_of_mem _ hx)) d

/-- An event list that never acquires the mutex counts no held joins when
started at depth 0, and leaves the depth at 0. -/
theorem heldJoins_no_lock (l : List LockEvent)
    (hl : ∀ e ∈ l, e ≠ LockEvent.lock) :
    heldJoins l 0 = 0 ∧ depthAfter l 0 = 0 := by
  induction l with
  | nil => exact ⟨rfl, rfl⟩
  | cons e r ih =>
    have hr : ∀ x ∈ r, x ≠ LockEvent.lock :=
      fun x hx => hl x (List.mem_cons_of_mem _ hx)
    cases e with
    | lock => exact absurd rfl (hl _ (List.mem_cons_self _ _))
    | unlock => simpa [heldJoins, depthAfter] using ih hr
    | joinWorker => simpa [heldJoins, depthAfter] using ih hr
    | engineWork => simpa [heldJoins, depthAfter] using ih hr

/-- Events that touch neither lock nor unlock leave the hold depth alone. -/
theorem depthAfter_no_mutex (l : List LockEvent)
    (hl : ∀ x ∈ l, x ≠ LockEvent.lock ∧ x ≠ LockEvent.unlock) :
    ∀ d, depthAfter l d = d := by
  induction l with
  | nil => intro d; rfl
  | cons e r ih =>
    intro d
    have hr : ∀ x ∈ r, x ≠ LockEvent.lock ∧ x ≠ LockEvent.unlock :=
      fun x hx => hl x (List.mem_cons_of_mem _ hx)
    cases e with
    | lock => exact absurd rfl (hl _ (List.mem_cons_self _ _)).1
    | unlock => exact absurd rfl (hl _ (List.mem_cons_self _ _)).2
    | joinWorker => simpa [depthAfter] using ih hr d
    | engineWork => simpa [depthAfter] using ih hr d

/-- The `cleanup_entry` on an already-joined entry performs no join: its only
blocking event is the engine teardown. -/
theorem cleanup_events_flat (e : preload_entry) (h : e.thread_running = false) :
    ∀ x ∈ cleanup_entry_events e, x = LockEvent.engineWork := by
  unfold cleanup_entry_events
  by_cases hu : e.url = none
  · simp [hu]
  · rw [h]
    by_cases hd : e.demuxer.isSome <;> simp [hu, hd]

/-- Phase 2 of `clear_all` produces only join events. -/
theorem mem_join_fold (es : List preload_entry) :
    ∀ x ∈ es.foldr (fun e acc =>
        (if e.thread_running then [LockEvent.joinWorker] else []) ++ acc) [],
      x = LockEvent.joinWorker := by
  induction es with
  | nil => simp
  | cons e r ih =>
    intro x hx
    rw [List.foldr_cons] at hx
    rcases List.mem_append.mp hx with hx | hx
    · by_cases htr : e.thread_running
      · rw [if_pos htr] at hx
        simpa using hx
      · rw [if_neg htr] at hx
        simp at hx
    · exact ih x hx

/-- Phase 3 of `clear_all` produces only engine-teardown events. -/
theorem mem_cleanup_fold (es : List preload_entry) :
    ∀ x ∈ es.foldr (fun e acc =>
        cleanup_entry_events ({ e with thread_running := false }) ++ acc) [],
      x = LockEvent.engineWork := by
  induction es with
  | nil => simp
  | cons e r ih =>
    intro x hx
    rw [List.foldr_cons] at hx
    rcases List.mem_append.mp hx with hx | hx
    · exact cleanup_events_flat _ rfl x hx
    · exact ih x hx

/-- The `mpv_preload_get_info` never joins a worker while holding the mutex
(it performs no join at all). -/
theorem get_info_no_locked_join (c : PreloadCache) :
    lockedJoinCount (mpv_preload_get_info_events c) = 0 := by
  unfold mpv_preload_get_info_events lockedJoinCount
  cases hinit : c.initialized <;> simp [heldJoins]

/-- The `mpv_preload_get_demuxer` joins the worker only between unlock and
re-lock: never while holding the mutex. -/
theorem get_demuxer_no_locked_join (c : PreloadCache) (u : String) :
    lockedJoinCount (mpv_preload_get_demuxer_events c u) = 0 := by
  unfold mpv_preload_get_demuxer_events lockedJoinCount
  cases hinit : c.initialized with
  | false => simp [heldJoins]
  | true =>
    cases hfe : find_entry_locked c.entries u with
    | none => simp [heldJoins]
    | some i =>
      by_cases hcond : (c.entries.getD i zeroEntry).status = PreloadStatus.NONE ∨
          (c.entries.getD i zeroEntry).status = PreloadStatus.ERROR ∨
          (c.entries.getD i zeroEntry).demuxer = none
      · simp only [List.getD_eq_getElem?_getD] at hcond
        simp [hcond, heldJoins]
      · have hn := hcond
        simp only [List.getD_eq_getElem?_getD] at hn
        by_cases htr : (c.entries.getD i zeroEntry).thread_running
        · simp only [List.getD_eq_getElem?_getD] at htr
          simp [hn, htr, heldJoins]
        · simp only [List.getD_eq_getElem?_getD] at htr
          simp [hn, htr, heldJoins]

/-- Shape of the `cancel` and `clear_all` traces: joins happen between the
first unlock and the re-lock, and only engine teardown happens under the
re-acquired lock, so no join is counted as lock-held. -/
theorem heldJoins_two_phase_shape (J Y : List LockEvent)
    (hJ : ∀ x ∈ J, x = LockEvent.joinWorker)
    (hY : ∀ x ∈ Y, x = LockEvent.engineWork) :
    heldJoins ([LockEvent.lock, LockEvent.unlock] ++ J ++ [LockEvent.lock] ++
      Y ++ [LockEvent.unlock]) 0 = 0 := by
  have hJ0 := (heldJoins_no_lock J (fun x hx => by rw [hJ x hx]; simp)).1
  have hJd := (heldJoins_no_lock J (fun x hx => by rw [hJ x hx]; simp)).2
  have hY0 := heldJoins_no_join Y (fun x hx => by rw [hY x hx]; simp)
  have hYd := depthAfter_no_mutex Y (fun x hx => by rw [hY x hx]; simp)
  simp [heldJoins_append, heldJoins, depthAfter, hJ0, hJd, hY0, hYd]

/-- Shape of the eviction trace inside `start`: the join happens at hold
depth 1, i.e. under the mutex. -/
theorem heldJoins_evict_shape (E : List LockEvent)
    (hE : ∀ x ∈ E, x = LockEvent.engineWork) :
    heldJoins ([LockEvent.lock] ++ (LockEvent.joinWorker :: E) ++
      [LockEvent.unlock]) 0 = 1 := by
  have hE0 := heldJoins_no_join E (fun x hx => by rw [hE x hx]; simp)
  have hEd := depthAfter_no_mutex E (fun x hx => by rw [hE x hx]; simp)
  simp [heldJoins_append, heldJoins, depthAfter, hE0, hEd]

/-- The `mpv_preload_cancel` joins the worker outside the lock; the final
cleanup under the lock joins nothing. -/
theorem cancel_no_locked_join (c : PreloadCache) (u : String) :
    lockedJoinCount (mpv_preload_cancel_events c u) = 0 := by
  unfold mpv_preload_cancel_events lockedJoinCount
  cases hinit : c.initialized with
  | false => simp [heldJoins]
  | true =>
    cases hfe : find_entry_locked c.entries u with
    | none => simp [hfe, heldJoins]
    | some i =>
      simp only [hfe, Bool.not_true, Bool.false_eq_true, if_false]
      refine heldJoins_two_phase_shape _ _ ?_ (cleanup_events_flat _ rfl)
      intro x hx
      by_cases htr : (c.entries.getD i zeroEntry).thread_running = true
      · rw [if_pos htr] at hx
        simpa using hx
      · rw [if_neg htr] at hx
        simp at hx

/-- The `mpv_preload_clear_all` joins all workers with the mutex released; the
final cleanup pass under the lock joins nothing. -/
theorem clear_all_no_locked_join (c : PreloadCache) :
    lockedJoinCount (mpv_preload_clear_all_events c) = 0 := by
  unfold mpv_preload_clear_all_events lockedJoinCount
  cases hinit : c.initialized with
  | false => simp [heldJoins]
  | true =>
    have hF := mem_join_fold c.entries
    have hF0 : heldJoins (c.entries.foldr (fun e acc =>
        (if e.thread_running then [LockEvent.joinWorker] else []) ++ acc) []) 0 = 0 :=
      (heldJoins_no_lock _ (fun x hx => by rw [hF x hx]; simp)).1
    have hFd : depthAfter (c.entries.foldr (fun e acc =>
        (if e.thread_running then [LockEvent.joinWorker] else []) ++ acc) []) 0 = 0 :=
      (heldJoins_no_lock _ (fun x hx => by rw [hF x hx]; simp)).2
    have hP := mem_cleanup_fold c.entries
    have hP0 : ∀ d, heldJoins (c.entries.foldr (fun e acc =>
        cleanup_entry_events ({ e with thread_running := false }) ++ acc) []) d = 0 :=
      heldJoins_no_join _ (fun x hx => by rw [hP x hx]; simp)
    have hPd : ∀ d, depthAfter (c.entries.foldr (fun e acc =>
        cleanup_entry_events ({ e with thread_running := false }) ++ acc) []) d = d :=
      depthAfter_no_mutex _ (fun x hx => by rw [hP x hx]; simp)
    simp [heldJoins_append, heldJoins, depthAfter, hF0, hFd, hP0, hPd]

/-- The `mpv_preload_start` performs no join at all when a free slot exists (or
when it bails out early). -/
theorem start_no_locked_join_free (c : PreloadCache) (url : Option String)
    (i : Nat) (hff : find_first_free c.entries = some i) :
    lockedJoinCount (mpv_preload_start_events c url) = 0 := by
  unfold mpv_preload_start_events lockedJoinCount
  cases url with
  | none => rfl
  | some u =>
    by_cases hu : u = ""
    · simp [hu, heldJoins]
    · cases hfe : find_entry_locked c.entries u with
      | some j => simp [hu, hfe, heldJoins]
      | none => simp [hu, hfe, hff, heldJoins]

/-- In the eviction path of `mpv_preload_start` (table full, victim's worker
running) the victim's worker is joined while the mutex is held. -/
theorem start_locked_join_eviction (c : PreloadCache) (u : String)
    (hu : u ≠ "") (hfe : find_entry_locked c.entries u = none)
    (hff : find_first_free c.entries = none) (j : Nat) (t : Int)
    (hfo : find_oldest_aux c.entries 0 none = some (j, t))
    (hurl : (c.entries.getD j zeroEntry).url ≠ none)
    (htr : (c.entries.getD j zeroEntry).thread_running = true) :
    lockedJoinCount (mpv_preload_start_events c (some u)) = 1 := by
  unfold mpv_preload_start_events lockedJoinCount cleanup_entry_events
  simp only [hfe, hff, hfo, if_neg hu]
  simp only [List.getD_eq_getElem?_getD] at hurl htr
  by_cases hd : (c.entries[j]?.getD zeroEntry).demuxer.isSome <;>
    simp [hurl, htr, hd, heldJoins_append, heldJoins, depthAfter]

/-- C4: Status monotonicity.  For every single entry the successive values
of the status field over one session (NONE in the free slot, LOADING written
by start, then the worker's writes) form a subsequence of
NONE→LOADING→READY→CACHED or of NONE→LOADING→ERROR, never regressing; CACHED
and ERROR are terminal for the worker's active phase (the worker writes no
further status), and the statuses delivered to the callback are a
subsequence of the same chain. -/
theorem preload_C4_status_monotonicity (mb : Int) (sc : EngineScript) (cb : Bool) :
    ((session_status_trace mb sc).Sublist
        [PreloadStatus.NONE, PreloadStatus.LOADING, PreloadStatus.READY,
         PreloadStatus.CACHED] ∨
     (session_status_trace mb sc).Sublist
        [PreloadStatus.NONE, PreloadStatus.LOADING, PreloadStatus.ERROR]) ∧
    (preload_thread_callbacks cb mb sc).Sublist (session_status_trace mb sc) := by
  rcases preload_thread_statuses_cases mb sc with h | h | h <;>
    unfold session_status_trace preload_thread_callbacks <;> rw [h] <;>
      cases cb <;> simp_all <;> decide

/-- C6: Notification discipline.  The registered callback fires only at the
READY, CACHED and ERROR transitions (never NONE or LOADING, and never when
no callback is registered); the CACHED notification is edge-triggered: it
appears at most once per entry, it appears iff some poll observes
forward-cached bytes ≥ max_bytes or whole-source-cached, and it fires during
the first such poll (no notification over the strictly earlier polls, one
CACHED notification over the polls up to and including it).  The snapshot
passed to the callback is built by `fill_preload_info` into the entry's
persistent `callback_info` buffer, modelled by `fill_preload_info`. -/
theorem preload_C6_notification_discipline :
    (∀ (cb : Bool) (mb : Int) (sc : EngineScript) (s : PreloadStatus),
      s ∈ preload_thread_callbacks cb mb sc →
      s = PreloadStatus.READY ∨ s = PreloadStatus.CACHED ∨ s = PreloadStatus.ERROR) ∧
    (∀ (cb : Bool) (mb : Int) (sc : EngineScript),
      (preload_thread_callbacks cb mb sc).count PreloadStatus.CACHED ≤ 1) ∧
    (∀ (mb : Int) (sc : EngineScript), preload_thread_callbacks false mb sc = []) ∧
    (∀ (mb : Int) (sc : EngineScript),
      sc.global_ok = true → sc.open_ok = true →
      (PreloadStatus.CACHED ∈ preload_thread_callbacks true mb sc ↔
        sc.polls.any (cached_poll mb) = true)) ∧
    (∀ (mb : Int) (polls : List DemuxPollState) (k : Nat),
      k < polls.length →
      cached_poll mb (polls.getD k ⟨0, false⟩) = true →
      (∀ j, j < k → cached_poll mb (polls.getD j ⟨0, false⟩) = false) →
      preload_monitor_loop mb true false (polls.take k) = [] ∧
      preload_monitor_loop mb true false (polls.take (k + 1)) = [PreloadStatus.CACHED]) := by
  refine ⟨?_, ?_, ?_, ?_, monitor_first_qualifying⟩
  · intro cb mb sc s hs
    cases cb with
    | false => simp [preload_thread_callbacks] at hs
    | true =>
      rw [preload_thread_callbacks, if_pos rfl] at hs
      rcases preload_thread_statuses_cases mb sc with h | h | h <;> rw [h] at hs <;>
        simp at hs <;> tauto
  · intro cb mb sc
    cases cb with
    | false => simp [preload_thread_callbacks]
    | true =>
      rw [preload_thread_callbacks, if_pos rfl]
      rcases preload_thread_statuses_cases mb sc with h | h | h <;> rw [h] <;> decide
  · intro mb sc
    simp [preload_thread_callbacks]
  · intro mb sc hg ho
    rw [preload_thread_callbacks, if_pos rfl]
    unfold preload_thread_statuses
    rw [hg, ho]
    simp only [Bool.not_true, Bool.false_eq_true, if_false]
    rw [monitor_false_eq]
    by_cases hq : sc.polls.any (cached_poll mb) = true
    · rw [if_pos hq]
      simp [hq]
    · rw [if_neg hq]
      simp [hq]

/-- C5: Claim precondition and atomicity on failure.  On an initialized
registry, `mpv_preload_get_demuxer` returns a non-null source exactly when
the entry found for the locator has a non-null source handle and a status
that is neither NONE nor ERROR; whenever it returns null the registry state
is left completely unchanged. -/
theorem preload_C5_claim_precondition (c : PreloadCache) (u : String)
    (hinit : c.initialized = true) :
    ((mpv_preload_get_demuxer c u).1.isSome = true ↔
      ∃ i, find_entry_locked c.entries u = some i ∧
        (c.entries.getD i zeroEntry).demuxer ≠ none ∧
        (c.entries.getD i zeroEntry).status ≠ PreloadStatus.NONE ∧
        (c.entries.getD i zeroEntry).status ≠ PreloadStatus.ERROR) ∧
    ((mpv_preload_get_demuxer c u).1 = none →
      (mpv_preload_get_demuxer c u).2 = c) := by
  constructor
  · constructor
    · intro hsome
      rcases get_demuxer_spec c u with ⟨i, hfe, _, hd, h1, h2, _⟩ | ⟨h1, _⟩
      · exact ⟨i, hfe, hd, h1, h2⟩
      · rw [h1] at hsome
        simp at hsome
    · rintro ⟨i, hfe, hd, h1, h2⟩
      have hn : ¬((c.entries.getD i zeroEntry).status = PreloadStatus.NONE ∨
          (c.entries.getD i zeroEntry).status = PreloadStatus.ERROR ∨
          (c.entries.getD i zeroEntry).demuxer = none) := by
        push_neg
        exact ⟨h1, h2, hd⟩
      simp only [List.getD_eq_getElem?_getD] at hn
      simp [mpv_preload_get_demuxer, hinit, hfe, hn, Option.isSome_iff_ne_none]
      simpa [List.getD_eq_getElem?_getD] using hd
  · intro hnull
    rcases get_demuxer_spec c u with ⟨i, _, _, hd, _, _, heq⟩ | ⟨_, heq⟩
    · rw [heq] at hnull
      simp only at hnull
      exact absurd hnull hd
    · rw [heq]

/-- C1: Exactly-once ownership handoff.  If claim returns a non-null source
for locator u, then afterwards the found entry's demuxer, global and cancel
fields are nulled and the slot is free (url cleared, status NONE), no entry
for u remains (the registry holds no reference to the source), a subsequent
`get_info` reports not-found (-1) with an all-zero snapshot of status NONE,
and a subsequent claim returns null leaving the state unchanged.  (The
"worker confirmed stopped" part of the guarantee is the join performed on
the success path, modelled by `thread_running := false` in `claimedEntry`.) -/
theorem preload_C1_exactly_once_handoff (c : PreloadCache) (u : String)
    (d : Nat) (c' : PreloadCache) (huniq : uniqueLocators c)
    (h : mpv_preload_get_demuxer c u = (some d, c')) :
    (∃ i, find_entry_locked c.entries u = some i ∧
      (c'.entries.getD i zeroEntry).demuxer = none ∧
      (c'.entries.getD i zeroEntry).globalCtx = none ∧
      (c'.entries.getD i zeroEntry).cancelTok = none ∧
      (c'.entries.getD i zeroEntry).url = none ∧
      (c'.entries.getD i zeroEntry).status = PreloadStatus.NONE ∧
      (c'.entries.getD i zeroEntry).thread_running = false) ∧
    find_entry_locked c'.entries u = none ∧
    (∀ (engine : Nat → EngineView) (info0 : mpv_preload_info),
      mpv_preload_get_info engine c' u info0 = (-1, zero_info)) ∧
    mpv_preload_get_demuxer c' u = (none, c') := by
  rcases get_demuxer_spec c u with ⟨i, hfe, hinit, hd, h1, h2, heq⟩ | ⟨h1, heq⟩
  · rw [heq] at h
    have hc' : c' =
        { c with entries := c.entries.set i (claimedEntry (c.entries.getD i zeroEntry)) } :=
      ((Prod.mk.injEq _ _ _ _).mp h).2.symm
    obtain ⟨hi, hurl⟩ := find_entry_some hfe
    have hgd : c'.entries.getD i zeroEntry =
        claimedEntry (c.entries.getD i zeroEntry) := by
      rw [hc']
      simp only
      rw [getD_set_eq_ite, if_pos ⟨rfl, hi⟩]
    have hnone : ∀ k, k < c'.entries.length →
        (c'.entries.getD k zeroEntry).url ≠ some u := by
      intro k hk
      rw [hc'] at hk ⊢
      simp only [List.length_set] at hk
      simp only
      rw [getD_set_eq_ite]
      by_cases hik : i = k ∧ i < c.entries.length
      · rw [if_pos hik]
        simp [claimedEntry]
      · rw [if_neg hik]
        have hki : i ≠ k := fun hik2 => hik ⟨hik2, hi⟩
        rcases huniq i hi k hk hki with hcontra | hne
        · rw [hurl] at hcontra
          exact absurd hcontra (by simp)
        · rw [hurl] at hne
          intro hcontra
          exact hne (hcontra.symm ▸ rfl)
    have hfind' : find_entry_locked c'.entries u = none := find_entry_none.mpr hnone
    have hinit' : c'.initialized = true := by
      rw [hc']
      exact hinit
    refine ⟨⟨i, hfe, ?_, ?_, ?_, ?_, ?_, ?_⟩, hfind', ?_, ?_⟩
    · rw [hgd]; rfl
    · rw [hgd]; rfl
    · rw [hgd]; rfl
    · rw [hgd]; rfl
    · rw [hgd]; rfl
    · rw [hgd]; rfl
    · intro engine info0
      simp [mpv_preload_get_info, hinit', hfind']
    · rcases get_demuxer_spec c' u with ⟨i2, hfe2, _, _, _, _, _⟩ | ⟨_, heq2⟩
      · rw [hfind'] at hfe2
        exact absurd hfe2 (by simp)
      · exact heq2
  · rw [heq] at h
    have := ((Prod.mk.injEq _ _ _ _).mp h).1
    exact absurd this (by simp)

/-- Phase 1 of `clear_all` adds the token of every occupied entry to the
triggered set. -/
theorem mem_trigger_fold (es : List preload_entry) (acc : List Nat) :
    ∀ (k : Nat) (t : Nat), k < es.length →
      (es.getD k zeroEntry).url.isSome = true →
      (es.getD k zeroEntry).cancelTok = some t →
      t ∈ es.foldr (fun e a =>
        match e.url, e.cancelTok with
        | some _, some tk => tk :: a
        | _, _ => a) acc := by
  induction es generalizing acc with
  | nil =>
    intro k t hk
    exact absurd hk (by simp)
  | cons e r ih =>
    intro k t hk hurl htok
    rw [List.foldr_cons]
    cases k with
    | zero =>
      simp only [List.getD_cons_zero] at hurl htok
      obtain ⟨v, hv⟩ := Option.isSome_iff_exists.mp hurl
      rw [hv, htok]
      exact List.mem_cons_self _ _
    | succ k =>
      simp only [List.getD_cons_succ] at hurl htok
      have hmem := ih acc k t (Nat.lt_of_succ_lt_succ hk) hurl htok
      cases hu : e.url with
      | none => simpa using hmem
      | some v =>
        cases ht : e.cancelTok with
        | none => simpa using hmem
        | some tk => simp [List.mem_cons, hmem]

/-- The `cleanup_all` never removes a token from the triggered set. -/
theorem cleanup_all_triggered_mono (c : PreloadCache) (t : Nat)
    (ht : t ∈ c.triggered) : ∀ n, t ∈ (cleanup_all c n).triggered := by
  intro n
  induction n with
  | zero => exact ht
  | succ n ih => exact cleanup_entry_triggered_mono _ _ _ ih

/-- C2: Soft stop versus hard cancel.  Claim (`mpv_preload_get_demuxer`)
never triggers any cancellation token (the triggered set is unchanged) and
stops the worker by setting only the soft flag `cancel_requested`; whereas
`mpv_preload_cancel`, `mpv_preload_clear_all` and the eviction inside
`mpv_preload_start` each trigger the entry's token (hard cancel) in addition
to setting the flag. -/
theorem preload_C2_soft_stop_vs_hard_cancel :
    (∀ (c : PreloadCache) (u : String),
      (mpv_preload_get_demuxer c u).2.triggered = c.triggered) ∧
    (∀ (c : PreloadCache) (u : String) (d : Nat) (c' : PreloadCache) (i : Nat),
      mpv_preload_get_demuxer c u = (some d, c') →
      find_entry_locked c.entries u = some i →
      (c'.entries.getD i zeroEntry).cancel_requested = true) ∧
    (∀ (c : PreloadCache) (u : String) (i : Nat) (t : Nat),
      c.initialized = true → find_entry_locked c.entries u = some i →
      (c.entries.getD i zeroEntry).cancelTok = some t →
      t ∈ (mpv_preload_cancel c u).2.triggered) ∧
    (∀ (c : PreloadCache) (i : Nat) (t : Nat),
      c.initialized = true → i < c.entries.length →
      (c.entries.getD i zeroEntry).url.isSome = true →
      (c.entries.getD i zeroEntry).cancelTok = some t →
      t ∈ (mpv_preload_clear_all c).triggered) ∧
    (∀ (c : PreloadCache) (u : String) (spawn_ok : Bool) (now : Int)
        (opts : Option mpv_preload_options) (j : Nat) (tt : Int) (t : Nat),
      u ≠ "" → find_entry_locked c.entries u = none →
      find_first_free c.entries = none →
      find_oldest_aux c.entries 0 none = some (j, tt) →
      (c.entries.getD j zeroEntry).url ≠ none →
      (c.entries.getD j zeroEntry).cancelTok = some t →
      t ∈ (mpv_preload_start spawn_ok now c (some u) opts).2.triggered) := by
  refine ⟨?_, ?_, ?_, ?_, ?_⟩
  · intro c u
    rcases get_demuxer_spec c u with ⟨i, _, _, _, _, _, heq⟩ | ⟨_, heq⟩ <;> rw [heq]
  · intro c u d c' i h hfe
    rcases get_demuxer_spec c u with ⟨i2, hfe2, _, _, _, _, heq⟩ | ⟨h1, heq⟩
    · rw [hfe] at hfe2
      cases hfe2
      rw [heq] at h
      have hc' := ((Prod.mk.injEq _ _ _ _).mp h).2.symm
      obtain ⟨hi, _⟩ := find_entry_some hfe
      rw [hc']
      simp only
      rw [getD_set_eq_ite, if_pos ⟨rfl, hi⟩]
      rfl
    · rw [heq] at h
      exact absurd ((Prod.mk.injEq _ _ _ _).mp h).1 (by simp)
  · intro c u i t hinit hfe htok
    simp only [mpv_preload_cancel, hinit, Bool.not_true, Bool.false_eq_true,
      if_false, hfe]
    refine cleanup_entry_triggered_mono _ _ _ ?_
    rw [htok]
    exact List.mem_cons_self _ _
  · intro c i t hinit hi hurl htok
    simp only [mpv_preload_clear_all, hinit, Bool.not_true, Bool.false_eq_true,
      if_false]
    refine cleanup_all_triggered_mono _ _ ?_ _
    exact mem_trigger_fold c.entries c.triggered i t hi hurl htok
  · intro c u spawn_ok now opts j tt t hu hfe hff hfo hurl htok
    have hfs : find_free_slot_locked { c with initialized := true } =
        (some j, cleanup_entry { c with initialized := true } j) := by
      unfold find_free_slot_locked
      have h1 : find_first_free ({ c with initialized := true } : PreloadCache).entries = none := hff
      have h2 : find_oldest_aux ({ c with initialized := true } : PreloadCache).entries 0 none =
          some (j, tt) := hfo
      rw [h1, h2]
    rw [start_insert_eq spawn_ok now c u opts hu hfe hfs]
    simp only
    exact cleanup_entry_triggers _ j t hurl htok

/-- C3: Capacity bound and FIFO eviction.  At most `MPV_PRELOAD_MAX_ENTRIES`
(4) slots are ever occupied after any operation sequence; and when `start`
finds no free slot for a fresh nonempty locator, it selects the occupied
entry with the smallest creation timestamp (ties broken towards the smallest
slot index), destroys it synchronously (hard-cancel recorded in the
triggered set, join, release, slot zeroed) and reuses exactly that slot for
the new locator before returning ok, so the victim's locator is gone from
the registry. -/
theorem preload_C3_capacity_and_fifo_eviction :
    (∀ ops : List PreloadOp,
      occupiedCount (runOps ops) ≤ MPV_PRELOAD_MAX_ENTRIES) ∧
    (∀ (c : PreloadCache) (u : String) (now : Int)
        (opts : Option mpv_preload_options),
      u ≠ "" → find_entry_locked c.entries u = none →
      find_first_free c.entries = none → c.entries ≠ [] → uniqueLocators c →
      ∃ j, j < c.entries.length ∧
        (∀ m, m < c.entries.length →
          (c.entries.getD j zeroEntry).create_time ≤
            (c.entries.getD m zeroEntry).create_time) ∧
        (∀ k, k < j →
          (c.entries.getD j zeroEntry).create_time <
            (c.entries.getD k zeroEntry).create_time) ∧
        (mpv_preload_start true now c (some u) opts).1 = StartResult.ok ∧
        ((mpv_preload_start true now c (some u) opts).2.entries.getD j
          zeroEntry).url = some u ∧
        (∀ v, (c.entries.getD j zeroEntry).url = some v →
          find_entry_locked
            (mpv_preload_start true now c (some u) opts).2.entries v = none) ∧
        (∀ t, (c.entries.getD j zeroEntry).cancelTok = some t →
          t ∈ (mpv_preload_start true now c (some u) opts).2.triggered)) := by
  constructor
  · intro ops
    calc occupiedCount (runOps ops) ≤ (runOps ops).entries.length :=
          List.length_filter_le _ _
      _ = MPV_PRELOAD_MAX_ENTRIES := runOps_length ops
  · intro c u now opts hu hfe hff hne huniq
    obtain ⟨j, hfo, hj, hmin, htie⟩ := find_oldest_spec c.entries hne
    have hfs : find_free_slot_locked { c with initialized := true } =
        (some j, cleanup_entry { c with initialized := true } j) := by
      unfold find_free_slot_locked
      have h1 : find_first_free ({ c with initialized := true } : PreloadCache).entries = none := hff
      have h2 : find_oldest_aux ({ c with initialized := true } : PreloadCache).entries 0 none =
          some (j, (c.entries.getD j zeroEntry).create_time) := hfo
      rw [h1, h2]
    have hstart := start_insert_eq true now c u opts hu hfe hfs
    have hclen : (cleanup_entry { c with initialized := true } j).entries.length =
        c.entries.length := length_cleanup _ j
    refine ⟨j, hj, hmin, htie, ?_, ?_, ?_, ?_⟩
    · rw [hstart]
      rfl
    · rw [hstart]
      simp only [if_pos]
      rw [getD_set_eq_ite, if_pos ⟨rfl, by rw [hclen]; exact hj⟩]
      rfl
    · intro v hv
      rw [hstart]
      simp only [if_pos]
      refine find_entry_none.mpr ?_
      intro k hk
      simp only [List.length_set, hclen] at hk
      rw [getD_set_eq_ite]
      have hvu : v ≠ u := by
        intro hvu
        exact (find_entry_none.mp hfe j hj) (hvu ▸ hv)
      by_cases hjk : j = k ∧ j < (cleanup_entry { c with initialized := true } j).entries.length
      · rw [if_pos hjk]
        simp only [startedSlot]
        intro hcontra
        simp only [Option.some.injEq] at hcontra
        exact hvu hcontra.symm
      · rw [if_neg hjk]
        rcases cleanup_entry_entries { c with initialized := true } j with hcl | hcl <;>
          rw [hcl]
        · have hkj : j ≠ k := by
            intro hjk2
            exact hjk ⟨hjk2, by rw [hclen]; exact hj⟩
          rcases huniq j hj k hk hkj with hcontra | hnev
          · rw [hv] at hcontra
            exact absurd hcontra (by simp)
          · rw [hv] at hnev
            intro hcontra
            exact hnev (hcontra.symm ▸ rfl)
        · rw [getD_set_eq_ite]
          by_cases hjk2 : j = k ∧ j < c.entries.length
          · rw [if_pos hjk2]
            simp [zeroEntry]
          · rw [if_neg hjk2]
            have hkj : j ≠ k := by
              intro hjk3
              exact hjk2 ⟨hjk3, hj⟩
            rcases huniq j hj k hk hkj with hcontra | hnev
            · rw [hv] at hcontra
              exact absurd hcontra (by simp)
            · rw [hv] at hnev
              intro hcontra
              exact hnev (hcontra.symm ▸ rfl)
    · intro t ht
      rw [hstart]
      simp only [if_pos]
      have hurlj : (c.entries.getD j zeroEntry).url ≠ none := by
        exact find_first_free_none.mp hff j hj
      exact cleanup_entry_triggers _ j t hurlj ht

/-- Rewriting `initialized := true` is the identity on an initialized state. -/
theorem initialized_update_eta (c : PreloadCache) (h : c.initialized = true) :
    ({ c with initialized := true } : PreloadCache) = c := by
  cases c
  simp_all

/-- On a nonempty table, `start` of a fresh nonempty locator with successful
thread creation returns ok. -/
theorem start_fresh_ok (now : Int) (c : PreloadCache) (u : String)
    (opts : Option mpv_preload_options) (hu : u ≠ "")
    (hfe : find_entry_locked c.entries u = none) (hne : c.entries ≠ []) :
    (mpv_preload_start true now c (some u) opts).1 = StartResult.ok := by
  obtain ⟨i, c1, hfs, _, _, _⟩ :=
    find_free_slot_some { c with initialized := true } (by simpa using hne)
  rw [start_insert_eq true now c u opts hu hfe hfs]
  rfl

/-- C7: Per-locator uniqueness and idempotent start.  After any sequence of
operations at most one occupied slot holds any given locator; and a second
`start` of a locator that is already active returns the already-active
branch with return code 0 (success, not an error) and leaves the registry
state completely unchanged — no new entry, no new worker, budgets of the
existing entry untouched. -/
theorem preload_C7_uniqueness_and_idempotent_start :
    (∀ ops : List PreloadOp, uniqueLocators (runOps ops)) ∧
    (∀ (c : PreloadCache) (u : String) (spawn_ok : Bool) (now : Int)
        (opts : Option mpv_preload_options) (i : Nat),
      u ≠ "" → c.initialized = true →
      find_entry_locked c.entries u = some i →
      mpv_preload_start spawn_ok now c (some u) opts =
        (StartResult.already_active, c) ∧
      startRet StartResult.already_active = 0) := by
  refine ⟨runOps_uniq, ?_⟩
  intro c u spawn_ok now opts i hu hinit hfe
  rw [start_already_active spawn_ok now c u opts i hu hfe,
    initialized_update_eta c hinit]
  exact ⟨rfl, rfl⟩

/-- C8: Start input handling.  A NULL or empty locator is rejected (-1)
without touching the registry; otherwise the new entry's budgets are fixed
at creation: `max_bytes` is the supplied value when positive and
10 MiB (10*1024*1024) when the options are absent or the value non-positive,
and `readahead_secs` is the supplied value when positive and 10.0 when the
options are absent or the value non-positive. -/
theorem preload_C8_start_input_handling :
    (∀ (spawn_ok : Bool) (now : Int) (c : PreloadCache)
        (opts : Option mpv_preload_options),
      mpv_preload_start spawn_ok now c none opts = (StartResult.rejected, c) ∧
      mpv_preload_start spawn_ok now c (some "") opts = (StartResult.rejected, c) ∧
      startRet StartResult.rejected = -1) ∧
    (∀ (now : Int) (c : PreloadCache) (u : String)
        (opts : Option mpv_preload_options),
      u ≠ "" → find_entry_locked c.entries u = none → c.entries ≠ [] →
      ∃ i, (mpv_preload_start true now c (some u) opts).1 = StartResult.ok ∧
        ((mpv_preload_start true now c (some u) opts).2.entries.getD i
          zeroEntry).url = some u ∧
        ((mpv_preload_start true now c (some u) opts).2.entries.getD i
          zeroEntry).max_bytes = startBudgetBytes opts ∧
        ((mpv_preload_start true now c (some u) opts).2.entries.getD i
          zeroEntry).readahead_secs = startBudgetSecs opts) ∧
    (startBudgetBytes none = 10 * 1024 * 1024) ∧
    (∀ o : mpv_preload_options, o.max_bytes ≤ 0 →
      startBudgetBytes (some o) = 10 * 1024 * 1024) ∧
    (∀ o : mpv_preload_options, 0 < o.max_bytes →
      startBudgetBytes (some o) = o.max_bytes) ∧
    (startBudgetSecs none = 10) ∧
    (∀ o : mpv_preload_options, o.readahead_secs ≤ 0 →
      startBudgetSecs (some o) = 10) ∧
    (∀ o : mpv_preload_options, 0 < o.readahead_secs →
      startBudgetSecs (some o) = o.readahead_secs) := by
  refine ⟨?_, ?_, rfl, ?_, ?_, rfl, ?_, ?_⟩
  · intro spawn_ok now c opts
    exact ⟨start_null_url spawn_ok now c opts, start_empty_url spawn_ok now c opts, rfl⟩
  · intro now c u opts hu hfe hne
    obtain ⟨i, c1, hfs, hi, hlen1, _⟩ :=
      find_free_slot_some { c with initialized := true } (by simpa using hne)
    have hstart := start_insert_eq true now c u opts hu hfe hfs
    have hin : i < c1.entries.length := by
      rw [hlen1]
      simpa using hi
    refine ⟨i, ?_, ?_, ?_, ?_⟩
    · rw [hstart]
      rfl
    · rw [hstart]
      simp only [if_pos]
      rw [getD_set_eq_ite, if_pos ⟨rfl, hin⟩]
      rfl
    · rw [hstart]
      simp only [if_pos]
      rw [getD_set_eq_ite, if_pos ⟨rfl, hin⟩]
      rfl
    · rw [hstart]
      simp only [if_pos]
      rw [getD_set_eq_ite, if_pos ⟨rfl, hin⟩]
      rfl
  · intro o h
    show (if 0 < o.max_bytes then o.max_bytes else 10 * 1024 * 1024) = 10 * 1024 * 1024
    rw [if_neg (not_lt.mpr h)]
  · intro o h
    show (if 0 < o.max_bytes then o.max_bytes else 10 * 1024 * 1024) = o.max_bytes
    rw [if_pos h]
  · intro o h
    show (if 0 < o.readahead_secs then o.readahead_secs else 10) = 10
    rw [if_neg (not_lt.mpr h)]
  · intro o h
    show (if 0 < o.readahead_secs then o.readahead_secs else 10) = o.readahead_secs
    rw [if_pos h]

/-- C9: Atomic rollback on thread-creation failure.  When `mp_thread_create`
fails for a fresh nonempty locator, `start` returns the no-slot failure
(-1) and the chosen slot is rolled back to free: url cleared and status
NONE, so the slot is reusable — a later start of a fresh locator on the
resulting state succeeds. -/
theorem preload_C9_rollback_on_spawn_failure (now : Int) (c : PreloadCache)
    (u : String) (opts : Option mpv_preload_options) (hu : u ≠ "")
    (hfe : find_entry_locked c.entries u = none) (hne : c.entries ≠ []) :
    (mpv_preload_start false now c (some u) opts).1 = StartResult.no_slot ∧
    startRet (mpv_preload_start false now c (some u) opts).1 = -1 ∧
    (∀ (i : Nat) (c1 : PreloadCache),
      find_free_slot_locked { c with initialized := true } = (some i, c1) →
      ((mpv_preload_start false now c (some u) opts).2.entries.getD i
        zeroEntry).url = none ∧
      ((mpv_preload_start false now c (some u) opts).2.entries.getD i
        zeroEntry).status = PreloadStatus.NONE) ∧
    (∀ (u2 : String) (now2 : Int) (opts2 : Option mpv_preload_options),
      u2 ≠ "" →
      find_entry_locked (mpv_preload_start false now c (some u) opts).2.entries
        u2 = none →
      (mpv_preload_start true now2
        (mpv_preload_start false now c (some u) opts).2 (some u2) opts2).1 =
        StartResult.ok) := by
  obtain ⟨i0, c10, hfs0, hi0, hlen10, _⟩ :=
    find_free_slot_some { c with initialized := true } (by simpa using hne)
  have hstart := start_insert_eq false now c u opts hu hfe hfs0
  refine ⟨?_, ?_, ?_, ?_⟩
  · rw [hstart]
    rfl
  · rw [hstart]
    rfl
  · intro i c1 hfs
    rw [hfs0] at hfs
    obtain ⟨hi_eq, hc1_eq⟩ := Prod.mk.injEq _ _ _ _ ▸ hfs
    cases hi_eq
    rw [hstart]
    simp only [Bool.false_eq_true, if_false]
    constructor <;>
      · rw [getD_set_eq_ite, if_pos ⟨rfl, by rw [hlen10]; simpa using hi0⟩]
        rfl
  · intro u2 now2 opts2 hu2 hfe2
    refine start_fresh_ok now2 _ u2 opts2 hu2 hfe2 ?_
    intro hnil
    have hlen := length_start false now c (some u) opts
    rw [hnil] at hlen
    simp at hlen
    exact hne (List.eq_nil_of_length_eq_zero hlen.symm)

/-- Hold-depth-aware decomposition of `heldEngine` over concatenation. -/
theorem heldEngine_append :
    ∀ (a b : List LockEvent) (d : Nat),
      heldEngine (a ++ b) d = heldEngine a d + heldEngine b (depthAfter a d) := by
  intro a
  induction a with
  | nil => intro b d; simp [heldEngine, depthAfter]
  | cons e r ih =>
    intro b d
    cases e with
    | lock => simpa [heldEngine, depthAfter] using ih b (d + 1)
    | unlock => simpa [heldEngine, depthAfter] using ih b (d - 1)
    | joinWorker => simpa [heldEngine, depthAfter] using ih b d
    | engineWork =>
      by_cases h0 : 0 < d <;>
        simp [heldEngine, depthAfter, h0, ih b d, Nat.add_assoc]

/-- Decomposition of `engineCount` over concatenation. -/
theorem engineCount_append :
    ∀ a b : List LockEvent, engineCount (a ++ b) = engineCount a + engineCount b := by
  intro a
  induction a with
  | nil => intro b; simp [engineCount]
  | cons e r ih =>
    intro b
    cases e <;> simp [engineCount, ih b, Nat.add_assoc]

/-- Traces without engine work contribute nothing to either counter. -/
theorem engineCount_no_engine (l : List LockEvent)
    (hl : ∀ x ∈ l, x ≠ LockEvent.engineWork) : engineCount l = 0 := by
  induction l with
  | nil => rfl
  | cons e r ih =>
    have hr := fun x hx => hl x (List.mem_cons_of_mem _ hx)
    cases e with
    | lock => simpa [engineCount] using ih hr
    | unlock => simpa [engineCount] using ih hr
    | joinWorker => simpa [engineCount] using ih hr
    | engineWork => exact absurd rfl (hl _ (List.mem_cons_self _ _))

/-- Traces without engine work count no lock-held engine work either. -/
theorem heldEngine_no_engine (l : List LockEvent)
    (hl : ∀ x ∈ l, x ≠ LockEvent.engineWork) : ∀ d, heldEngine l d = 0 := by
  induction l with
  | nil => intro d; rfl
  | cons e r ih =>
    intro d
    have hr := fun x hx => hl x (List.mem_cons_of_mem _ hx)
    cases e with
    | lock => exact ih hr (d + 1)
    | unlock => exact ih hr (d - 1)
    | joinWorker => exact ih hr d
    | engineWork => exact absurd rfl (hl _ (List.mem_cons_self _ _))

/-- In a mutex-free trace executed at positive hold depth, every engine
call is counted as lock-held. -/
theorem heldEngine_flat_pos (l : List LockEvent)
    (hl : ∀ x ∈ l, x ≠ LockEvent.lock ∧ x ≠ LockEvent.unlock) :
    ∀ d, 0 < d → heldEngine l d = engineCount l := by
  induction l with
  | nil => intro d _; rfl
  | cons e r ih =>
    intro d hd
    have hr := fun x hx => hl x (List.mem_cons_of_mem _ hx)
    cases e with
    | lock => exact absurd rfl (hl _ (List.mem_cons_self _ _)).1
    | unlock => exact absurd rfl (hl _ (List.mem_cons_self _ _)).2
    | joinWorker => simpa [heldEngine, engineCount] using ih hr d hd
    | engineWork => simp [heldEngine, engineCount, hd, ih hr d hd]

/-- Events of `cleanup_entry`: only worker joins and engine teardown. -/
theorem cleanup_events_mem (e : preload_entry) :
    ∀ x ∈ cleanup_entry_events e,
      x = LockEvent.joinWorker ∨ x = LockEvent.engineWork := by
  unfold cleanup_entry_events
  by_cases hu : e.url = none
  · simp [hu]
  · intro x hx
    rw [if_neg hu] at hx
    rcases List.mem_append.mp hx with hx | hx
    · left
      by_cases ht : e.thread_running
      · rw [if_pos ht] at hx
        simpa using hx
      · rw [if_neg ht] at hx
        simp at hx
    · right
      by_cases hd : e.demuxer.isSome
      · rw [if_pos hd] at hx
        simpa using hx
      · rw [if_neg hd] at hx
        simp at hx

/-- In the `cancel` / `clear_all` trace shape, every engine-teardown call
(all of them inside the re-locked cleanup) is performed with the mutex
held. -/
theorem heldEngine_two_phase_shape (J Y : List LockEvent)
    (hJ : ∀ x ∈ J, x = LockEvent.joinWorker)
    (hY : ∀ x ∈ Y, x = LockEvent.engineWork) :
    heldEngine ([LockEvent.lock, LockEvent.unlock] ++ J ++ [LockEvent.lock] ++
      Y ++ [LockEvent.unlock]) 0 =
    engineCount ([LockEvent.lock, LockEvent.unlock] ++ J ++ [LockEvent.lock] ++
      Y ++ [LockEvent.unlock]) := by
  have hJ0 := heldEngine_no_engine J (fun x hx => by rw [hJ x hx]; simp)
  have hJc := engineCount_no_engine J (fun x hx => by rw [hJ x hx]; simp)
  have hJd := (heldJoins_no_lock J (fun x hx => by rw [hJ x hx]; simp)).2
  have hYf : ∀ x ∈ Y, x ≠ LockEvent.lock ∧ x ≠ LockEvent.unlock :=
    fun x hx => by rw [hY x hx]; simp
  have hY1 := heldEngine_flat_pos Y hYf 1 (by omega)
  have hYd := depthAfter_no_mutex Y hYf
  simp [heldEngine_append, engineCount_append, heldEngine, engineCount,
    depthAfter, hJ0, hJc, hJd, hY1, hYd]

/-- In the bracketed `start` trace shape, every engine-teardown call (the
eviction's) is performed with the mutex held. -/
theorem heldEngine_bracket_shape (W : List LockEvent)
    (hW : ∀ x ∈ W, x = LockEvent.joinWorker ∨ x = LockEvent.engineWork) :
    heldEngine ([LockEvent.lock] ++ W ++ [LockEvent.unlock]) 0 =
    engineCount ([LockEvent.lock] ++ W ++ [LockEvent.unlock]) := by
  have hWf : ∀ x ∈ W, x ≠ LockEvent.lock ∧ x ≠ LockEvent.unlock :=
    fun x hx => by rcases hW x hx with h | h <;> rw [h] <;> simp
  have hW1 := heldEngine_flat_pos W hWf 1 (by omega)
  have hWd := depthAfter_no_mutex W hWf
  simp [heldEngine_append, engineCount_append, heldEngine, engineCount,
    depthAfter, hW1, hWd]

/-- The `mpv_preload_get_info` trace performs no blocking engine call at
all (the progress read is a nonblocking snapshot query). -/
theorem get_info_no_engine (c : PreloadCache) :
    engineCount (mpv_preload_get_info_events c) = 0 := by
  unfold mpv_preload_get_info_events
  cases hinit : c.initialized <;> rfl

/-- The `mpv_preload_get_demuxer` trace performs no blocking engine call at
all: the claimed source is detached and returned, never destroyed. -/
theorem get_demuxer_no_engine (c : PreloadCache) (u : String) :
    engineCount (mpv_preload_get_demuxer_events c u) = 0 := by
  unfold mpv_preload_get_demuxer_events
  cases hinit : c.initialized with
  | false => rfl
  | true =>
    cases hfe : find_entry_locked c.entries u with
    | none => simp [engineCount]
    | some i =>
      by_cases hcond : (c.entries.getD i zeroEntry).status = PreloadStatus.NONE ∨
          (c.entries.getD i zeroEntry).status = PreloadStatus.ERROR ∨
          (c.entries.getD i zeroEntry).demuxer = none
      · simp only [List.getD_eq_getElem?_getD] at hcond
        simp [hcond, engineCount]
      · have hn := hcond
        simp only [List.getD_eq_getElem?_getD] at hn
        by_cases htr : (c.entries.getD i zeroEntry).thread_running
        · simp only [List.getD_eq_getElem?_getD] at htr
          simp [hn, htr, engineCount]
        · simp only [List.getD_eq_getElem?_getD] at htr
          simp [hn, htr, engineCount]

/-- Every engine-teardown call of `mpv_preload_cancel` (the
`demux_cancel_and_free` of the cancelled entry, inside `cleanup_entry`)
happens while the mutex is held. -/
theorem cancel_engine_under_lock (c : PreloadCache) (u : String) :
    lockedEngineCount (mpv_preload_cancel_events c u) =
      engineCount (mpv_preload_cancel_events c u) := by
  unfold mpv_preload_cancel_events lockedEngineCount
  cases hinit : c.initialized with
  | false => rfl
  | true =>
    cases hfe : find_entry_locked c.entries u with
    | none => simp [hfe, heldEngine, engineCount]
    | some i =>
      simp only [hfe, Bool.not_true, Bool.false_eq_true, if_false]
      refine heldEngine_two_phase_shape _ _ ?_ (cleanup_events_flat _ rfl)
      intro x hx
      by_cases htr : (c.entries.getD i zeroEntry).thread_running = true
      · rw [if_pos htr] at hx
        simpa using hx
      · rw [if_neg htr] at hx
        simp at hx

/-- Every engine-teardown call of `mpv_preload_clear_all` (phase 3's
`demux_cancel_and_free` of each occupied entry) happens while the mutex is
held. -/
theorem clear_all_engine_under_lock (c : PreloadCache) :
    lockedEngineCount (mpv_preload_clear_all_events c) =
      engineCount (mpv_preload_clear_all_events c) := by
  unfold mpv_preload_clear_all_events lockedEngineCount
  cases hinit : c.initialized with
  | false => rfl
  | true =>
    simp only [Bool.not_true, Bool.false_eq_true, if_false]
    exact heldEngine_two_phase_shape _ _ (mem_join_fold c.entries)
      (mem_cleanup_fold c.entries)

/-- Every engine-teardown call of `mpv_preload_start` (the eviction's
`demux_cancel_and_free` of the victim, when the table is full) happens
while the mutex is held. -/
theorem start_engine_under_lock (c : PreloadCache) (url : Option String) :
    lockedEngineCount (mpv_preload_start_events c url) =
      engineCount (mpv_preload_start_events c url) := by
  unfold mpv_preload_start_events lockedEngineCount
  cases url with
  | none => rfl
  | some u =>
    by_cases hu : u = ""
    · simp [hu, heldEngine, engineCount]
    · cases hfe : find_entry_locked c.entries u with
      | some i =>
        simp only [if_neg hu, hfe]
        exact heldEngine_bracket_shape [] (by simp)
      | none =>
        cases hff : find_first_free c.entries with
        | some i =>
          simp only [if_neg hu, hfe, hff]
          exact heldEngine_bracket_shape [] (by simp)
        | none =>
          cases hfo : find_oldest_aux c.entries 0 none with
          | none =>
            simp only [if_neg hu, hfe, hff, hfo]
            exact heldEngine_bracket_shape [] (by simp)
          | some p =>
            obtain ⟨j, t⟩ := p
            simp only [if_neg hu, hfe, hff, hfo]
            exact heldEngine_bracket_shape _ (cleanup_events_mem _)

/-- C10 counterexample: the claim "the registry mutex is held only for
slot-table bookkeeping and never across a blocking wait — never while
joining a worker thread or while the engine performs I/O — in every
operation, including the eviction performed inside start" is false on the
code, on both counts, each at a concrete input.  (1) On a full table of
running workers, starting a fifth locator runs `find_free_slot_locked` →
`cleanup_entry` → `mp_thread_join` with the mutex still held: that start
trace joins the victim's worker at hold depth 1.  (2) `mpv_preload_cancel`
of an entry owning a source re-acquires the mutex and then runs
`cleanup_entry` → `demux_cancel_and_free` (blocking engine teardown) under
it, and phase 3 of `mpv_preload_clear_all` does the same for every
occupied entry. -/
theorem preload_C10_counterexample :
    ¬ (∀ (c : PreloadCache) (url : Option String),
        lockedJoinCount (mpv_preload_start_events c url) = 0) ∧
    ¬ (∀ (c : PreloadCache) (u : String),
        lockedEngineCount (mpv_preload_cancel_events c u) = 0) ∧
    ¬ (∀ c : PreloadCache,
        lockedEngineCount (mpv_preload_clear_all_events c) = 0) := by
  refine ⟨fun h => ?_, fun h => ?_, fun h => ?_⟩
  · exact absurd (h fullCache (some "e")) (by decide)
  · exact absurd (h singleCache "a") (by decide)
  · exact absurd (h singleCache) (by decide)

/-- C10 (amended): the mutex is never held while joining a worker in
`get_info`, `cancel`, claim (`get_demuxer`) and `clear_all` (`cancel` and
claim release it before the join, `clear_all` joins after unlocking), and
`start` joins nothing under the mutex when a free slot exists; but in the
eviction path of `start` (table full, fresh locator, victim's worker
running) the victim's worker is joined while the mutex is held.  The
engine-I/O half of the original discipline survives only for the query and
handoff paths: `get_info` and claim perform no blocking engine call in
their traces at all, whereas in `cancel`, `clear_all` and `start` every
blocking engine-teardown call (`demux_cancel_and_free` of the destroyed
entry) that the trace contains is performed while the mutex is held. -/
theorem preload_C10_lock_discipline_amended :
    (∀ c : PreloadCache, lockedJoinCount (mpv_preload_get_info_events c) = 0) ∧
    (∀ (c : PreloadCache) (u : String),
      lockedJoinCount (mpv_preload_get_demuxer_events c u) = 0) ∧
    (∀ (c : PreloadCache) (u : String),
      lockedJoinCount (mpv_preload_cancel_events c u) = 0) ∧
    (∀ c : PreloadCache, lockedJoinCount (mpv_preload_clear_all_events c) = 0) ∧
    (∀ (c : PreloadCache) (url : Option String) (i : Nat),
      find_first_free c.entries = some i →
      lockedJoinCount (mpv_preload_start_events c url) = 0) ∧
    (∀ (c : PreloadCache) (u : String) (j : Nat) (t : Int),
      u ≠ "" → find_entry_locked c.entries u = none →
      find_first_free c.entries = none →
      find_oldest_aux c.entries 0 none = some (j, t) →
      (c.entries.getD j zeroEntry).url ≠ none →
      (c.entries.getD j zeroEntry).thread_running = true →
      lockedJoinCount (mpv_preload_start_events c (some u)) = 1) ∧
    (∀ c : PreloadCache, engineCount (mpv_preload_get_info_events c) = 0) ∧
    (∀ (c : PreloadCache) (u : String),
      engineCount (mpv_preload_get_demuxer_events c u) = 0) ∧
    (∀ (c : PreloadCache) (u : String),
      lockedEngineCount (mpv_preload_cancel_events c u) =
        engineCount (mpv_preload_cancel_events c u)) ∧
    (∀ c : PreloadCache,
      lockedEngineCount (mpv_preload_clear_all_events c) =
        engineCount (mpv_preload_clear_all_events c)) ∧
    (∀ (c : PreloadCache) (url : Option String),
      lockedEngineCount (mpv_preload_start_events c url) =
        engineCount (mpv_preload_start_events c url)) :=
  ⟨get_info_no_locked_join, get_demuxer_no_locked_join, cancel_no_locked_join,
   clear_all_no_locked_join,
   fun c url i hff => start_no_locked_join_free c url i hff,
   fun c u j t hu hfe hff hfo hurl htr =>
     start_locked_join_eviction c u hu hfe hff j t hfo hurl htr,
   get_info_no_engine, get_demuxer_no_engine, cancel_engine_under_lock,
   clear_all_engine_under_lock, start_engine_under_lock⟩

/-- C1 witness: claiming "a" from a registry holding it READY empties the
registry of it: the locator is gone and a second claim returns null. -/
theorem preload_C1_witness :
    find_entry_locked (mpv_preload_get_demuxer singleCache "a").2.entries "a" =
      none ∧
    mpv_preload_get_demuxer (mpv_preload_get_demuxer singleCache "a").2 "a" =
      (none, (mpv_preload_get_demuxer singleCache "a").2) := by
  have h := preload_C1_exactly_once_handoff singleCache "a" 1
    (mpv_preload_get_demuxer singleCache "a").2 (by decide) (by decide)
  exact ⟨h.2.1, h.2.2.2⟩

/-- C2 witness: claiming "a" triggers no token and sets the soft flag;
cancel, clear_all, and the eviction inside a 5th start trigger the token. -/
theorem preload_C2_witness :
    (mpv_preload_get_demuxer singleCache "a").2.triggered =
      singleCache.triggered ∧
    ((mpv_preload_get_demuxer singleCache "a").2.entries.getD 0
      zeroEntry).cancel_requested = true ∧
    1 ∈ (mpv_preload_cancel singleCache "a").2.triggered ∧
    1 ∈ (mpv_preload_clear_all singleCache).triggered ∧
    1 ∈ (mpv_preload_start true 9 fullCache (some "e") none).2.triggered := by
  refine ⟨preload_C2_soft_stop_vs_hard_cancel.1 singleCache "a",
    preload_C2_soft_stop_vs_hard_cancel.2.1 singleCache "a" 1
      (mpv_preload_get_demuxer singleCache "a").2 0 (by decide) (by decide),
    preload_C2_soft_stop_vs_hard_cancel.2.2.1 singleCache "a" 0 1 rfl
      (by decide) (by decide),
    preload_C2_soft_stop_vs_hard_cancel.2.2.2.1 singleCache 0 1 rfl
      (by decide) (by decide) (by decide),
    preload_C2_soft_stop_vs_hard_cancel.2.2.2.2 fullCache "e" true 9 none 0 1 1
      (by decide) (by decide) (by decide) (by decide) (by decide) (by decide)⟩

/-- C3 witness: a 5th distinct locator on a full table starts successfully
(the oldest entry having been evicted), and no sequence of operations
exceeds the 4-slot capacity. -/
theorem preload_C3_witness :
    occupiedCount (runOps []) ≤ MPV_PRELOAD_MAX_ENTRIES ∧
    (mpv_preload_start true 9 fullCache (some "e") none).1 = StartResult.ok := by
  obtain ⟨j, _, _, _, hok, _, _, _⟩ :=
    preload_C3_capacity_and_fifo_eviction.2 fullCache "e" 9 none
      (by decide) (by decide) (by decide) (by decide) (by decide)
  exact ⟨preload_C3_capacity_and_fifo_eviction.1 [], hok⟩

/-- C5 witness: claim succeeds on a READY entry with a source handle, and a
claim of an absent locator leaves the registry untouched. -/
theorem preload_C5_witness :
    (mpv_preload_get_demuxer singleCache "a").1.isSome = true ∧
    (mpv_preload_get_demuxer singleCache "zzz").2 = singleCache := by
  refine ⟨(preload_C5_claim_precondition singleCache "a" rfl).1.mpr
    ⟨0, by decide, by decide, by decide, by decide⟩,
    (preload_C5_claim_precondition singleCache "zzz" rfl).2 (by decide)⟩

/-- C6 witness: with max_bytes 5 and polls reaching 7 forward bytes on the
second poll, the CACHED notification fires, exactly at the second poll. -/
theorem preload_C6_witness :
    PreloadStatus.CACHED ∈ preload_thread_callbacks true 5
      ⟨true, true, [⟨0, false⟩, ⟨7, false⟩]⟩ ∧
    preload_monitor_loop 5 true false
      (([⟨0, false⟩, ⟨7, false⟩] : List DemuxPollState).take 1) = [] ∧
    preload_monitor_loop 5 true false
      (([⟨0, false⟩, ⟨7, false⟩] : List DemuxPollState).take 2) =
      [PreloadStatus.CACHED] := by
  have h4 := (preload_C6_notification_discipline.2.2.2.1 5
    ⟨true, true, [⟨0, false⟩, ⟨7, false⟩]⟩ rfl rfl).mpr (by decide)
  have h5 := preload_C6_notification_discipline.2.2.2.2 5
    [⟨0, false⟩, ⟨7, false⟩] 1 (by decide) (by decide) (by decide)
  exact ⟨h4, h5.1, h5.2⟩

/-- C7 witness: the empty operation sequence satisfies uniqueness, and a
second start of "a" is an exact no-op returning the success code. -/
theorem preload_C7_witness :
    uniqueLocators (runOps []) ∧
    mpv_preload_start true 9 singleCache (some "a") none =
      (StartResult.already_active, singleCache) := by
  have h := preload_C7_uniqueness_and_idempotent_start.2 singleCache "a" true 9
    none 0 (by decide) rfl (by decide)
  exact ⟨preload_C7_uniqueness_and_idempotent_start.1 [], h.1⟩

/-- C8 witness: NULL locator rejected; defaults applied for zero budgets;
positive budgets taken verbatim; a fresh start succeeds. -/
theorem preload_C8_witness :
    mpv_preload_start true 0 initialCache none none =
      (StartResult.rejected, initialCache) ∧
    startBudgetBytes (some ⟨0, 0⟩) = 10 * 1024 * 1024 ∧
    startBudgetSecs (some ⟨0, 0⟩) = 10 ∧
    startBudgetBytes (some ⟨1000, 1⟩) = 1000 ∧
    (mpv_preload_start true 0 freeCache (some "x") none).1 = StartResult.ok := by
  obtain ⟨i, hok, _, _, _⟩ := preload_C8_start_input_handling.2.1 0 freeCache "x"
    none (by decide) (by decide) (by decide)
  exact ⟨(preload_C8_start_input_handling.1 true 0 initialCache none).1,
    preload_C8_start_input_handling.2.2.2.1 ⟨0, 0⟩ (by decide),
    preload_C8_start_input_handling.2.2.2.2.2.2.1 ⟨0, 0⟩ (by decide),
    preload_C8_start_input_handling.2.2.2.2.1 ⟨1000, 1⟩ (by decide),
    hok⟩

/-- C9 witness: spawn failure on a free table returns no_slot with the slot
rolled back, and a later start on the resulting state succeeds. -/
theorem preload_C9_witness :
    (mpv_preload_start false 0 freeCache (some "x") none).1 =
      StartResult.no_slot ∧
    ((mpv_preload_start false 0 freeCache (some "x") none).2.entries.getD 0
      zeroEntry).url = none ∧
    (mpv_preload_start true 1 (mpv_preload_start false 0 freeCache (some "x")
      none).2 (some "y") none).1 = StartResult.ok := by
  have h := preload_C9_rollback_on_spawn_failure 0 freeCache "x" none
    (by decide) (by decide) (by decide)
  exact ⟨h.1, (h.2.2.1 0 freeCache (by decide)).1,
    h.2.2.2 "y" 1 none (by decide) (by decide)⟩

/-- C10 witness (for the amended claim): cancel joins outside the lock, a
start with a free slot joins nothing under the lock, the eviction start on
a full table joins exactly once under the lock; claim performs no blocking
engine call, and all engine teardown of cancel and clear_all (one call
each here) is under the lock. -/
theorem preload_C10_witness :
    lockedJoinCount (mpv_preload_cancel_events singleCache "a") = 0 ∧
    lockedJoinCount (mpv_preload_start_events freeCache (some "x")) = 0 ∧
    lockedJoinCount (mpv_preload_start_events fullCache (some "e")) = 1 ∧
    engineCount (mpv_preload_get_demuxer_events singleCache "a") = 0 ∧
    lockedEngineCount (mpv_preload_cancel_events singleCache "a") =
      engineCount (mpv_preload_cancel_events singleCache "a") ∧
    lockedEngineCount (mpv_preload_clear_all_events singleCache) =
      engineCount (mpv_preload_clear_all_events singleCache) ∧
    lockedEngineCount (mpv_preload_start_events fullCache (some "e")) =
      engineCount (mpv_preload_start_events fullCache (some "e")) :=
  ⟨preload_C10_lock_discipline_amended.2.2.1 singleCache "a",
   preload_C10_lock_discipline_amended.2.2.2.2.1 freeCache (some "x") 0
     (by decide),
   preload_C10_lock_discipline_amended.2.2.2.2.2.1 fullCache "e" 0 1
     (by decide) (by decide) (by decide) (by decide) (by decide) (by decide),
   preload_C10_lock_discipline_amended.2.2.2.2.2.2.2.1 singleCache "a",
   preload_C10_lock_discipline_amended.2.2.2.2.2.2.2.2.1 singleCache "a",
   preload_C10_lock_discipline_amended.2.2.2.2.2.2.2.2.2.1 singleCache,
   preload_C10_lock_discipline_amended.2.2.2.2.2.2.2.2.2.2 fullCache
     (some "e")⟩
